import Mathlib

/-!
# Verification of the cc-hems-data-collector specification against its source

A shallow embedding of the parts of `hems_data_collector` (Python) that the
verified claims are about, together with theorems settling those claims.

Modelling conventions:
* Python strings are `List Char`; `None`-able strings are `Option (List Char)`.
* Python ints are `ℤ` (`ℕ` where the source value is manifestly non-negative);
  Python floats are modelled exactly as `ℚ`, with `round(x, n)` modelled as
  round-half-to-even on the decimal grid (CPython's documented rounding mode).
* Functions that can raise an exception which the source catches (returning
  `None`) are modelled with `Option`.
* Wall-clock time and time-zone conversion are out of scope: timestamps are
  represented structurally (calendar fields / half-hour slot coordinates)
  rather than as ISO-8601 strings.
* The serial link is modelled as the list of lines the module delivers, one
  entry per wait-loop iteration, paired with the value the process-wide
  `running` flag has when that iteration checks it; an exhausted list models
  the deadline expiring.
-/

/-! ## Python string primitives -/

/-- Whitespace recognised by Python's `str.strip()` (ASCII part). -/
def pyIsSpace (c : Char) : Bool :=
  c = ' ' || c = '\t' || c = '\n' || c = '\x0d' || c = '\x0b' || c = '\x0c'

/-- `s.strip()` on both ends. -/
def pyStrip (s : List Char) : List Char :=
  ((s.dropWhile pyIsSpace).reverse.dropWhile pyIsSpace).reverse

/-- `s.upper()` (ASCII; all strings handled here are ASCII). -/
def pyUpper (s : List Char) : List Char :=
  s.map Char.toUpper

/-- Value of a single hexadecimal digit character, as accepted by `int(_, 16)`. -/
def hexDigitVal? (c : Char) : Option ℕ :=
  if '0' ≤ c ∧ c ≤ '9' then some (c.toNat - 48)
  else if 'A' ≤ c ∧ c ≤ 'F' then some (c.toNat - 55)
  else if 'a' ≤ c ∧ c ≤ 'f' then some (c.toNat - 87)
  else none

/-- Accumulating fold over hex digits; fails on the first non-digit. -/
def hexFoldAux (acc : ℕ) : List Char → Option ℕ
  | [] => some acc
  | c :: cs =>
    match hexDigitVal? c with
    | none => none
    | some d => hexFoldAux (acc * 16 + d) cs

/-- A non-empty run of hex digits, as a number. -/
def hexDigits? (s : List Char) : Option ℕ :=
  if s = [] then none else hexFoldAux 0 s

/-- Digit run with the optional `0x` / `0X` prefix allowed by `int(_, 16)`. -/
def hexDigitsPrefixed? (s : List Char) : Option ℕ :=
  match s with
  | '0' :: x :: rest =>
    if x = 'x' ∨ x = 'X' then hexDigits? rest else hexDigits? s
  | _ => hexDigits? s

/-- Python `int(s, 16)`: surrounding whitespace, an optional sign, an optional
`0x` prefix, then at least one hex digit.  `none` models `ValueError`.
(Underscore digit separators and non-ASCII whitespace are not modelled; no
input in this development uses them.) -/
def pyIntHex? (s : List Char) : Option ℤ :=
  match pyStrip s with
  | '+' :: r => (hexDigitsPrefixed? r).map Int.ofNat
  | '-' :: r => (hexDigitsPrefixed? r).map (fun n => -(n : ℤ))
  | r => (hexDigitsPrefixed? r).map Int.ofNat

/-- Clamp a Python slice index to the actual list, as `s[a:b]` does. -/
def pyBound (n : ℕ) (i : ℤ) : ℕ :=
  if i < 0 then (n + i).toNat else min i.toNat n

/-- Python slice `s[a:b]` (step 1), with full negative/overflow semantics. -/
def pySlice (s : List Char) (a b : ℤ) : List Char :=
  (s.take (pyBound s.length b)).drop (pyBound s.length a)

/-- Python `s.split(' ')`: split at every single space, keeping empty parts. -/
def splitSpaceAux : List Char → List Char → List (List Char)
  | [], cur => [cur.reverse]
  | c :: rest, cur =>
    if c = ' ' then cur.reverse :: splitSpaceAux rest []
    else splitSpaceAux rest (c :: cur)

/-- Python `s.split(' ')`. -/
def pySplitSpace (s : List Char) : List (List Char) :=
  splitSpaceAux s []

/-- Python `needle in hay` for strings (substring containment). -/
def pyContains (hay needle : List Char) : Bool :=
  hay.tails.any (fun t => needle.isPrefixOf t)

/-! ## Hexadecimal rendering (for `format(_, '04X')`, `to_bytes`, and for
building the concrete byte strings the universally quantified theorems range
over) -/

/-- The upper-case hex digit character for `d < 16`. -/
def hexChar (d : ℕ) : Char :=
  if d < 10 then Char.ofNat (48 + d) else Char.ofNat (55 + d)

/-- `n` written as exactly `w` upper-case hex digits (big-endian, truncating
higher digits; all uses have `n < 16 ^ w`). -/
def natToHex : ℕ → ℕ → List Char
  | _, 0 => []
  | n, w + 1 => natToHex (n / 16) w ++ [hexChar (n % 16)]

/-- Number of hex digits Python prints for `n` (at least one). -/
def hexWidth (n : ℕ) : ℕ :=
  if n = 0 then 1 else Nat.log 16 n + 1

/-- Python `format(n, '04X')`: upper-case hex, zero-padded to width 4 (for
`n < 16 ^ 4` the width is exactly 4; wider values print all their digits). -/
def pyFormat04X (n : ℕ) : List Char :=
  if n < 16 ^ 4 then natToHex n 4 else natToHex n (hexWidth n)

/-- Big-endian byte rendering of `n` over exactly `w` bytes. -/
def natToBytes : ℕ → ℕ → List ℕ
  | _, 0 => []
  | n, w + 1 => natToBytes (n / 256) w ++ [n % 256]

/-- Python `v.to_bytes(w, 'big')`: `none` models `OverflowError`. -/
def intToBytes? (v : ℤ) (w : ℕ) : Option (List ℕ) :=
  if 0 ≤ v ∧ v < (256 : ℤ) ^ w then some (natToBytes v.toNat w) else none

/-! ## Exact-rational models of the float helpers -/

/-- CPython `round` ties-to-even, on an exact rational. -/
def roundHalfEven (q : ℚ) : ℤ :=
  let f := ⌊q⌋
  let r := q - f
  if r < 1/2 then f
  else if 1/2 < r then f + 1
  else if f % 2 = 0 then f else f + 1

/-- `round(x, d)` for `d ≥ 0` decimals. -/
def roundTo (x : ℚ) (d : ℕ) : ℚ :=
  (roundHalfEven (x * 10 ^ d) : ℚ) / 10 ^ d

/-- The rounding idiom shared by `parse_cumulative_power`,
`parse_historical_power` and `parse_cumulative_power_history`:

    if multiplier < 1:
        decimals = -int(math.log10(multiplier))
        value = round(value, decimals)

`-int(math.log10 m)` for `0 < m < 1` is `-⌈log₁₀ m⌉` (float `int()` truncates
toward zero), i.e. `-(Int.clog 10 m)`.  `math.log10` of a non-positive float
raises `ValueError`, which every caller catches by returning `None`: that is
the `none` branch. -/
def pyRoundMult? (x m : ℚ) : Option ℚ :=
  if m < 1 then
    if m ≤ 0 then none
    else some (roundTo x (-(Int.clog 10 m)).toNat)
  else some x

/-- `_parse_signed_hex` (utils.py:190-205): two's-complement read of a hex
string, with the bit width taken from the string length. -/
def parseSignedHex? (s : List Char) : Option ℤ :=
  (pyIntHex? s).map fun v =>
    let bits := 4 * s.length
    if Int.land v ((2 : ℤ) ^ (bits - 1)) ≠ 0 then v - 2 ^ bits else v

/-! ## ECHONET Lite frame codec (utils.py:28-130) -/

/-- One parsed property entry (`{'EPC': …, 'PDC': …, 'EDT': …}`). -/
structure EchoProp where
  EPC : List Char
  PDC : ℤ
  EDT : List Char
deriving DecidableEq, Repr

/-- A parsed ECHONET Lite frame (the dictionary built by
`parse_echonet_frame`). -/
structure EchonetFrame where
  EHD : List Char
  TID : List Char
  SEOJ : List Char
  DEOJ : List Char
  ESV : List Char
  OPC : ℤ
  properties : List EchoProp
deriving DecidableEq, Repr

/-- The property loop of `parse_echonet_frame` (utils.py:68-91): `fuel` is the
announced `OPC` count, `pos` the character position `current_pos`.  A tuple
whose remaining bytes are missing makes the loop `break`, returning the
properties collected so far; an unparsable `PDC` raises `ValueError`, which
the enclosing handler turns into `none` for the whole frame. -/
def parsePropsAux (s : List Char) : ℕ → ℤ → List EchoProp → Option (List EchoProp)
  | 0, _, acc => some acc
  | fuel + 1, pos, acc =>
    if (s.length : ℤ) < pos + 4 then some acc
    else
      (pyIntHex? (pySlice s (pos + 2) (pos + 4))).bind fun pdc =>
        if (s.length : ℤ) < pos + 4 + pdc * 2 then some acc
        else
          parsePropsAux s fuel (pos + 4 + pdc * 2)
            (acc ++ [⟨pyUpper (pySlice s pos (pos + 2)), pdc,
                      pyUpper (pySlice s (pos + 4) (pos + 4 + pdc * 2))⟩])

/-- `parse_echonet_frame` (utils.py:28-97).  Mirrors the source's effect
order: the length guard, then the `OPC` conversion (whose `ValueError` is
caught before the header comparison runs its course), then the `EHD` check,
then the property loop. -/
def parse_echonet_frame (s : List Char) : Option EchonetFrame :=
  if s.length < 24 then none
  else
    (pyIntHex? (pySlice s 22 24)).bind fun opc =>
      if pySlice s 0 4 ≠ ['1', '0', '8', '1'] then none
      else
        (parsePropsAux s opc.toNat 24 []).bind fun props =>
          some ⟨pySlice s 0 4, pySlice s 4 8, pySlice s 8 14, pySlice s 14 20,
                pySlice s 20 22, opc, props⟩

/-- `parse_echonet_response` (utils.py:99-130): extract the `EDT` of the
requested property from a Get response frame. -/
def parse_echonet_response (response : Option (List Char)) (propertyCode : List Char) :
    Option (List Char) :=
  response.bind fun r =>
    if r = [] then none
    else
      (parse_echonet_frame r).bind fun f =>
        if f.ESV ≠ ['7', '2'] then none
        else (f.properties.find? (fun p => p.EPC = pyUpper propertyCode)).map EchoProp.EDT

/-! ## Power-value decoders (utils.py:132-341) -/

/-- Association-list lookup, as `dict` membership plus indexing on a literal
table of string keys. -/
def tableLookup (t : List (List Char × ℚ)) (k : List Char) : Option ℚ :=
  match t with
  | [] => none
  | p :: rest => if p.1 = k then some p.2 else tableLookup rest k

/-- The `POWER_UNITS` table (utils.py:156-166). -/
def POWER_UNITS : List (List Char × ℚ) :=
  [(['0', '0'], 1), (['0', '1'], 1/10), (['0', '2'], 1/100),
   (['0', '3'], 1/1000), (['0', '4'], 1/10000),
   (['0', 'A'], 10), (['0', 'B'], 100), (['0', 'C'], 1000), (['0', 'D'], 10000)]

/-- `parse_power_unit` (utils.py:168-180).  The argument is `Option` because
`get_meter_data` feeds it the possibly-`None` result of
`parse_echonet_response`; `if not hex_value` covers both `None` and `""`. -/
def parse_power_unit (h : Option (List Char)) : ℚ :=
  match h with
  | none => 1
  | some s =>
    if s = [] then 1
    else (tableLookup POWER_UNITS (pyUpper s)).getD 1

/-- `parse_cumulative_power` (utils.py:132-154). -/
def parse_cumulative_power (h : Option (List Char)) (m : ℚ) : Option ℚ :=
  h.bind fun s =>
    if s = [] then none
    else (pyIntHex? s).bind fun v => pyRoundMult? (v * m) m

/-- `parse_instant_power` (utils.py:207-227). -/
def parse_instant_power (h : Option (List Char)) : Option ℤ :=
  h.bind fun s =>
    if s = [] ∨ s.length ≠ 8 then none
    else parseSignedHex? s

/-- Result dictionary of `parse_current_value`. -/
structure CurrentResult where
  current_a : ℚ
  current_r_a : ℚ
  current_t_a : Option ℚ
deriving DecidableEq, Repr

/-- `parse_current_value` (utils.py:229-284). -/
def parse_current_value (h : Option (List Char)) : Option CurrentResult :=
  h.bind fun s =>
    if s = [] then none
    else if s.length = 8 then
      let rPhaseHex := pySlice s 0 4
      let tPhaseHex := pySlice s 4 8
      if pyUpper tPhaseHex = ['7', 'F', 'F', 'E'] then
        (parseSignedHex? rPhaseHex).bind fun rv =>
          let currentR := (rv : ℚ) / 10
          some ⟨roundTo currentR 1, roundTo currentR 1, none⟩
      else
        (parseSignedHex? rPhaseHex).bind fun rv =>
          (parseSignedHex? tPhaseHex).bind fun tv =>
            let currentR := (rv : ℚ) / 10
            let currentT := (tv : ℚ) / 10
            some ⟨roundTo (currentR + currentT) 1, roundTo currentR 1,
                  some (roundTo currentT 1)⟩
    else if s.length = 4 then
      (parseSignedHex? s).bind fun rv =>
        let currentR := (rv : ℚ) / 10
        some ⟨roundTo currentR 1, roundTo currentR 1, none⟩
    else none

/-- Days in a month of the proleptic Gregorian calendar, as
`datetime.datetime` validates them. -/
def daysInMonth (y m : ℕ) : ℕ :=
  if m = 2 then
    if y % 4 = 0 ∧ (y % 100 ≠ 0 ∨ y % 400 = 0) then 29 else 28
  else if m = 4 ∨ m = 6 ∨ m = 9 ∨ m = 11 then 30
  else 31

/-- Argument validation of `datetime.datetime(y, mo, d, h, mi, s)`; a failing
check raises `ValueError`. -/
def datetimeValid (y mo d h mi s : ℤ) : Bool :=
  1 ≤ y ∧ y ≤ 9999 ∧ 1 ≤ mo ∧ mo ≤ 12 ∧ 1 ≤ d ∧
    d ≤ (daysInMonth y.toNat mo.toNat : ℤ) ∧
    0 ≤ h ∧ h < 24 ∧ 0 ≤ mi ∧ mi < 60 ∧ 0 ≤ s ∧ s < 60

/-- Result of `parse_historical_power`; the timestamp is kept structurally as
the decoded calendar fields (zone conversion is out of scope). -/
structure HistoricalResult where
  historical_timestamp : ℤ × ℤ × ℤ × ℤ × ℤ × ℤ
  historical_cumulative_power_kwh : ℚ
deriving DecidableEq, Repr

/-- `parse_historical_power` (utils.py:286-341).  If the calendar fields are
invalid, both the primary and the fallback `datetime` constructions raise
`ValueError`, which the outer handler turns into `None`. -/
def parse_historical_power (h : Option (List Char)) (m : ℚ) : Option HistoricalResult :=
  h.bind fun s =>
    if s = [] ∨ s.length ≠ 22 then none
    else
      (pyIntHex? (pySlice s 0 4)).bind fun y =>
        (pyIntHex? (pySlice s 4 6)).bind fun mo =>
          (pyIntHex? (pySlice s 6 8)).bind fun d =>
            (pyIntHex? (pySlice s 8 10)).bind fun hh =>
              (pyIntHex? (pySlice s 10 12)).bind fun mi =>
                (pyIntHex? (pySlice s 12 14)).bind fun ss =>
                  (pyIntHex? (pySlice s 14 22)).bind fun powerRaw =>
                    if datetimeValid y mo d hh mi ss then
                      (pyRoundMult? (powerRaw * m) m).map
                        (fun v => ⟨(y, mo, d, hh, mi, ss), v⟩)
                    else none

/-! ## E2 history and the 30-minute consumption (utils.py:343-482) -/

/-- `_extract_readings` (utils.py:356-385): the 48 half-hour readings of an
E2 payload.  Fewer than 388 characters (or a missing payload) yields no
readings; the 2-byte day header is skipped; each 8-character slot is
upper-cased, the sentinel `FFFFFFFE` (and any unparsable slot) becomes
`none`.  The slot slices `values_hex[i*8:(i+1)*8]` are written with
`drop`/`take`; the 388-character guard keeps every slice in range, so this
agrees with the Python slice. -/
def extract_readings (edt : Option (List Char)) : List (Option ℤ) :=
  match edt with
  | none => []
  | some e =>
    if e = [] ∨ e.length < 388 then []
    else
      let valuesHex := e.drop 4
      (List.range 48).map fun i =>
        let valHex := pyUpper ((valuesHex.drop (i * 8)).take 8)
        if valHex = ['F', 'F', 'F', 'F', 'F', 'F', 'F', 'E'] then none
        else pyIntHex? valHex

/-- The downward scan of utils.py:399-412, traversing the reading list from
the highest index: the accumulator holds the latest reading once found; the
result pairs `(latest, latest_idx)` with `(previous, previous_idx)`.  The
reversed list is consumed front-to-back, `i` being the index of the current
element in the original list. -/
def findTwoLatestAux : List (Option ℤ) → ℕ → Option (ℤ × ℕ) → Option ((ℤ × ℕ) × (ℤ × ℕ))
  | [], _, _ => none
  | o :: rest, i, st =>
    match o with
    | none => findTwoLatestAux rest (i - 1) st
    | some v =>
      match st with
      | none => findTwoLatestAux rest (i - 1) (some (v, i))
      | some latest => some (latest, (v, i))

/-- The scan applied to the combined reading list. -/
def findTwoLatest (l : List (Option ℤ)) : Option ((ℤ × ℕ) × (ℤ × ℕ)) :=
  findTwoLatestAux l.reverse (l.length - 1) none

/-- `is_yesterday_data_present` (utils.py:391). -/
def yesterdayAvailable (yest : Option (List Char)) : Bool :=
  yest.isSome ∧ 388 ≤ (yest.getD []).length

/-- The combined reading list (utils.py:393-397):
`yesterday ++ today` when yesterday's payload is present, else today alone. -/
def combinedReadings (today yest : Option (List Char)) : List (Option ℤ) :=
  if yesterdayAvailable yest then extract_readings yest ++ extract_readings today
  else extract_readings today

/-- The local half-hour slot of the latest reading (utils.py:450-470): day
shift (`0` today, `-1` yesterday), hour and minute.  Conversion of this local
time to a UTC ISO string is out of scope. -/
def histSlot (yAvail : Bool) (latestIdx : ℕ) : ℤ × ℕ × ℕ :=
  let isToday := if yAvail then 48 ≤ latestIdx else true
  let latestIdxRel := if yAvail ∧ isToday then latestIdx - 48 else latestIdx
  let hour := latestIdxRel * 30 / 60
  let minute := latestIdxRel * 30 % 60
  (if isToday then 0 else -1, hour, minute)

/-- Result dictionary of `parse_cumulative_power_history`. -/
structure HistResult where
  recent_30min_consumption_kwh : ℚ
  recent_30min_slot : ℤ × ℕ × ℕ
deriving DecidableEq, Repr

/-- `parse_cumulative_power_history` (utils.py:343-482): the 30-minute
consumption from today's (and optionally yesterday's) E2 payload. -/
def parse_cumulative_power_history (today yest : Option (List Char)) (m : ℚ) :
    Option HistResult :=
  (findTwoLatest (combinedReadings today yest)).bind fun lp =>
    (pyRoundMult? ((lp.1.1 - lp.2.1) * m) m).map fun c =>
      ⟨c, histSlot (yesterdayAvailable yest) lp.1.2⟩

/-! ## Transaction layer (serial_client.py:295-456) -/

/-- One wait-loop iteration's environment: the value of the process-wide
`running` flag at the iteration's check, and the line delivered by the serial
module (`[]` when nothing was waiting to be read). -/
abbrev SerialIter := Bool × List Char

/-- `_wait_for_echonet_response` (serial_client.py:295-342), over the
sequence of loop iterations; an exhausted list models the 20-second
deadline.  Returns the raw hex payload of the accepted `ERXUDP`. -/
def wait_for_echonet_response (iters : List SerialIter)
    (propertyCode requestTidHex expectedEsv : List Char) : Option (List Char) :=
  match iters with
  | [] => none
  | (run, line) :: rest =>
    if !run then none
    else if line = [] then wait_for_echonet_response rest propertyCode requestTidHex expectedEsv
    else if (['E', 'R', 'X', 'U', 'D', 'P'] : List Char).isPrefixOf line then
      let parts := pySplitSpace (pyStrip line)
      if 9 ≤ parts.length then
        let payload := parts.getD 8 []
        match parse_echonet_frame payload with
        | none => wait_for_echonet_response rest propertyCode requestTidHex expectedEsv
        | some f =>
          if f.TID ≠ requestTidHex then
            wait_for_echonet_response rest propertyCode requestTidHex expectedEsv
          else if pyUpper f.ESV = pyUpper expectedEsv then
            if f.properties.any (fun p => p.EPC = pyUpper propertyCode) then some payload
            else wait_for_echonet_response rest propertyCode requestTidHex expectedEsv
          else if (['5'] : List Char).isPrefixOf f.ESV then none
          else wait_for_echonet_response rest propertyCode requestTidHex expectedEsv
      else wait_for_echonet_response rest propertyCode requestTidHex expectedEsv
    else if pyContains line ['F', 'A', 'I', 'L'] then none
    else wait_for_echonet_response rest propertyCode requestTidHex expectedEsv

/-- The ECHONET Lite Get frame built by `get_property`
(serial_client.py:362-377), as a byte list; `none` models the `except`
branch (a `to_bytes` overflow or an unparsable property code). -/
def build_get_frame (transactionId : ℤ) (propertyCode : List Char) : Option (List ℕ) :=
  (pyIntHex? propertyCode).bind fun e =>
    (intToBytes? transactionId 2).bind fun tidBytes =>
      (intToBytes? e 1).bind fun epcBytes =>
        some ([0x10, 0x81] ++ tidBytes ++
              [0x05, 0xFF, 0x01] ++ [0x02, 0x88, 0x01] ++
              [0x62] ++ [0x01] ++ epcBytes ++ [0x00])

/-- `datalen_hex_str` (serial_client.py:380-381): the frame's byte length as
four upper-case hex digits. -/
def datalen_hex_str (frame : List ℕ) : List Char :=
  pyFormat04X frame.length

/-! ## PANA join wait (serial_client.py:253-293) -/

/-- The `EVENT 25` wait loop of `initialize`, over its iterations (at most
30 in the source; an exhausted list models the 30-second timeout).  The
second component of the state is the `connected` attribute, `False` from
`__init__` until the loop sees `EVENT 25`; the result is
`(return value of initialize, connected)`. -/
def wait_event25 (iters : List SerialIter) (connected : Bool) : Bool × Bool :=
  match iters with
  | [] => (false, connected)
  | (run, line) :: rest =>
    if !run then (false, connected)
    else if (['E', 'V', 'E', 'N', 'T', ' ', '2', '4'] : List Char).isPrefixOf line then
      (false, connected)
    else if (['E', 'V', 'E', 'N', 'T', ' ', '2', '5'] : List Char).isPrefixOf line then
      (true, true)
    else wait_event25 rest connected

/-! ## One poller tick (serial_client.py:458-563) and the forwarding decision
(main.py:202-208) -/

/-- Keys of the measurement record dictionary. -/
inductive MKey where
  | timestamp
  | cumulative_power_kwh
  | instant_power_w
  | current_a
  | current_r_a
  | current_t_a
  | historical_timestamp
  | historical_cumulative_power_kwh
  | recent_30min_consumption_kwh
  | recent_30min_timestamp
deriving DecidableEq, Repr

/-- Values of the measurement record dictionary.  `tsNow` stands for the
wall-clock ISO string of `get_current_timestamp()`; `null` is Python `None`
(the T-phase of a single-phase reading). -/
inductive MVal where
  | tsNow
  | q (v : ℚ)
  | z (v : ℤ)
  | null
  | calendar (t : ℤ × ℤ × ℤ × ℤ × ℤ × ℤ)
  | slot (s : ℤ × ℕ × ℕ)
deriving DecidableEq, Repr

/-- A measurement record: the key/value pairs in insertion order. -/
abbrev MeterRecord := List (MKey × MVal)

/-- The responses the transaction layer delivers during one tick, in request
order: the results of `get_property` for E1, E0, E7, E8, EA, of
`set_property(E5, '00')`, `get_property(E2)` (today), `set_property(E5,
'01')` and `get_property(E2)` (yesterday).  `none` is a failed transaction. -/
structure MeterEnv where
  unitResp : Option (List Char)
  cumulResp : Option (List Char)
  instResp : Option (List Char)
  currResp : Option (List Char)
  histResp : Option (List Char)
  setTodayResp : Option (List Char)
  todayResp : Option (List Char)
  setYestResp : Option (List Char)
  yestResp : Option (List Char)

/-- Python truthiness of an optional string (`if hex_value:`,
`if self.set_property(...):`). -/
def pyTruthyStr (o : Option (List Char)) : Bool :=
  match o with
  | none => false
  | some s => s ≠ []

/-- The unit fetch of a tick (serial_client.py:468-472): the `E1` response
decoded to the kWh multiplier, defaulting to 1. -/
def tickMultiplier (env : MeterEnv) : ℚ :=
  parse_power_unit (parse_echonet_response env.unitResp ['E', '1'])

/-- serial_client.py:474-482: the cumulative-power entry, when decodable. -/
def cumulativeEntries (env : MeterEnv) (m : ℚ) : List (MKey × MVal) :=
  if pyTruthyStr (parse_echonet_response env.cumulResp ['E', '0']) then
    match parse_cumulative_power (parse_echonet_response env.cumulResp ['E', '0']) m with
    | some v => [(MKey.cumulative_power_kwh, MVal.q v)]
    | none => []
  else []

/-- serial_client.py:484-492: the instantaneous-power entry. -/
def instantEntries (env : MeterEnv) : List (MKey × MVal) :=
  if pyTruthyStr (parse_echonet_response env.instResp ['E', '7']) then
    match parse_instant_power (parse_echonet_response env.instResp ['E', '7']) with
    | some v => [(MKey.instant_power_w, MVal.z v)]
    | none => []
  else []

/-- serial_client.py:494-508: the instantaneous-current entries. -/
def currentEntries (env : MeterEnv) : List (MKey × MVal) :=
  if pyTruthyStr (parse_echonet_response env.currResp ['E', '8']) then
    match parse_current_value (parse_echonet_response env.currResp ['E', '8']) with
    | some c =>
      [(MKey.current_a, MVal.q c.current_a),
       (MKey.current_r_a, MVal.q c.current_r_a),
       (MKey.current_t_a, match c.current_t_a with
                          | some t => MVal.q t
                          | none => MVal.null)]
    | none => []
  else []

/-- serial_client.py:510-518: the scheduled-cumulative (EA) entries. -/
def historicalEntries (env : MeterEnv) (m : ℚ) : List (MKey × MVal) :=
  if pyTruthyStr (parse_echonet_response env.histResp ['E', 'A']) then
    match parse_historical_power (parse_echonet_response env.histResp ['E', 'A']) m with
    | some hd =>
      [(MKey.historical_timestamp, MVal.calendar hd.historical_timestamp),
       (MKey.historical_cumulative_power_kwh,
        MVal.q hd.historical_cumulative_power_kwh)]
    | none => []
  else []

/-- serial_client.py:520-550: the E5/E2 chain computing the 30-minute
consumption — today's history alone first, then, if that failed and today's
payload was obtained, the concatenation with yesterday's. -/
def consumptionResult (env : MeterEnv) (m : ℚ) : Option HistResult :=
  let todayHistoryHex :=
    if pyTruthyStr env.setTodayResp then
      parse_echonet_response env.todayResp ['E', '2']
    else none
  let consumptionFirst := parse_cumulative_power_history todayHistoryHex none m
  if consumptionFirst.isNone ∧ todayHistoryHex.isSome then
    let yesterdayHistoryHex :=
      if pyTruthyStr env.setYestResp then
        parse_echonet_response env.yestResp ['E', '2']
      else none
    parse_cumulative_power_history todayHistoryHex yesterdayHistoryHex m
  else consumptionFirst

/-- serial_client.py:552-554: the 30-minute-consumption entries. -/
def recentEntries (env : MeterEnv) (m : ℚ) : List (MKey × MVal) :=
  match consumptionResult env m with
  | some cd =>
    [(MKey.recent_30min_consumption_kwh, MVal.q cd.recent_30min_consumption_kwh),
     (MKey.recent_30min_timestamp, MVal.slot cd.recent_30min_slot)]
  | none => []

/-- All non-timestamp entries of one tick, in insertion order. -/
def tickEntries (env : MeterEnv) : List (MKey × MVal) :=
  cumulativeEntries env (tickMultiplier env) ++ instantEntries env ++
    currentEntries env ++ historicalEntries env (tickMultiplier env) ++
    recentEntries env (tickMultiplier env)

/-- `get_meter_data` (serial_client.py:458-563): assemble one record from the
tick's transaction results; return it only when something besides the
timestamp was decoded (`return data if len(data) > 1 else None`). -/
def get_meter_data (connected : Bool) (env : MeterEnv) : Option MeterRecord :=
  if !connected then none
  else
    if 1 < ((MKey.timestamp, MVal.tsNow) :: tickEntries env).length then
      some ((MKey.timestamp, MVal.tsNow) :: tickEntries env)
    else none

/-- The forwarding decision of the collection loop (main.py:202-208,
220-228): a record is put on the output queue only when `get_meter_data`
returned one. -/
def tick_forwarded (connected : Bool) (env : MeterEnv) : List MeterRecord :=
  match get_meter_data connected env with
  | some d => [d]
  | none => []

/-! ## Process exit (main.py:136-256) -/

/-- The value `main()` returns.  Both the early `return` after a failed
`client.initialize()` (main.py:168-170) and the normal fall-through once the
collection loop ends (main.py:249-252) leave the function without an explicit
value, i.e. return `None`; `main` contains no `sys.exit` and no `return`
with a value on any path (the invalid-cron branch at main.py:179-181 also
plain-`return`s). -/
def main_return (initOk : Bool) : Option ℤ :=
  if !initOk then none
  else none

/-- The exit code of the Python process given `main`'s return value: the
console-script entry point runs `sys.exit(main())`, and `sys.exit(None)`
exits with code 0; running the module directly likewise exits 0 when `main`
returns normally. -/
def process_exit_code (r : Option ℤ) : ℕ :=
  match r with
  | none => 0
  | some v => (v % 256).toNat

/-! ## Character-level lemmas -/

theorem char_le_iff (a b : Char) : a ≤ b ↔ a.toNat ≤ b.toNat := by
  rw [Char.le_def, UInt32.le_def]
  exact Iff.rfl

/-- The characters `natToHex` emits: `0`-`9` and `A`-`F`. -/
def IsUpperHexDigit (c : Char) : Prop :=
  ('0' ≤ c ∧ c ≤ '9') ∨ ('A' ≤ c ∧ c ≤ 'F')

instance (c : Char) : Decidable (IsUpperHexDigit c) := by
  unfold IsUpperHexDigit
  infer_instance

theorem IsUpperHexDigit.toNat_bounds {c : Char} (h : IsUpperHexDigit c) :
    (48 ≤ c.toNat ∧ c.toNat ≤ 57) ∨ (65 ≤ c.toNat ∧ c.toNat ≤ 70) := by
  rcases h with ⟨h1, h2⟩ | ⟨h1, h2⟩
  · exact Or.inl ⟨(char_le_iff _ _).1 h1, (char_le_iff _ _).1 h2⟩
  · exact Or.inr ⟨(char_le_iff _ _).1 h1, (char_le_iff _ _).1 h2⟩

theorem IsUpperHexDigit.toUpper_eq {c : Char} (h : IsUpperHexDigit c) :
    c.toUpper = c := by
  have hb := h.toNat_bounds
  unfold Char.toUpper
  rw [if_neg]
  omega

theorem IsUpperHexDigit.not_space {c : Char} (h : IsUpperHexDigit c) :
    pyIsSpace c = false := by
  have hb := h.toNat_bounds
  simp only [pyIsSpace, Bool.or_eq_false_iff, decide_eq_false_iff_not]
  refine ⟨⟨⟨⟨⟨?_, ?_⟩, ?_⟩, ?_⟩, ?_⟩, ?_⟩ <;> rintro rfl <;> simp at hb

theorem IsUpperHexDigit.ne_plus {c : Char} (h : IsUpperHexDigit c) : c ≠ '+' := by
  have hb := h.toNat_bounds
  rintro rfl
  simp at hb

theorem IsUpperHexDigit.ne_minus {c : Char} (h : IsUpperHexDigit c) : c ≠ '-' := by
  have hb := h.toNat_bounds
  rintro rfl
  simp at hb

theorem IsUpperHexDigit.ne_x {c : Char} (h : IsUpperHexDigit c) :
    ¬(c = 'x' ∨ c = 'X') := by
  have hb := h.toNat_bounds
  rintro (rfl | rfl) <;> simp at hb

theorem hexChar_isUpperHexDigit {d : ℕ} (h : d < 16) :
    IsUpperHexDigit (hexChar d) := by
  interval_cases d <;> decide

theorem hexDigitVal_hexChar {d : ℕ} (h : d < 16) :
    hexDigitVal? (hexChar d) = some d := by
  interval_cases d <;> decide

/-! ## String-level roundtrip lemmas -/

theorem dropWhile_eq_self_of_forall {p : Char → Bool} {l : List Char}
    (h : ∀ c ∈ l, p c = false) : l.dropWhile p = l := by
  cases l with
  | nil => rfl
  | cons c rest =>
    rw [List.dropWhile_cons_of_neg]
    simp [h c (List.mem_cons_self c rest)]

theorem pyStrip_of_hex {s : List Char} (h : ∀ c ∈ s, IsUpperHexDigit c) :
    pyStrip s = s := by
  unfold pyStrip
  rw [dropWhile_eq_self_of_forall (fun c hc => (h c hc).not_space),
      dropWhile_eq_self_of_forall, List.reverse_reverse]
  intro c hc
  exact (h c (List.mem_reverse.1 hc)).not_space

theorem pyUpper_of_hex {s : List Char} (h : ∀ c ∈ s, IsUpperHexDigit c) :
    pyUpper s = s := by
  unfold pyUpper
  conv_rhs => rw [← List.map_id s]
  exact List.map_congr_left fun c hc => (h c hc).toUpper_eq

theorem natToHex_length (n w : ℕ) : (natToHex n w).length = w := by
  induction w generalizing n with
  | zero => rfl
  | succ w ih => simp [natToHex, ih]

theorem natToHex_mem_hex (n w : ℕ) : ∀ c ∈ natToHex n w, IsUpperHexDigit c := by
  induction w generalizing n with
  | zero => simp [natToHex]
  | succ w ih =>
    intro c hc
    rw [natToHex, List.mem_append] at hc
    rcases hc with hc | hc
    · exact ih _ c hc
    · simp only [List.mem_singleton] at hc
      subst hc
      exact hexChar_isUpperHexDigit (Nat.mod_lt _ (by norm_num))

theorem hexFoldAux_append (acc : ℕ) (xs ys : List Char) :
    hexFoldAux acc (xs ++ ys) =
      match hexFoldAux acc xs with
      | none => none
      | some a => hexFoldAux a ys := by
  induction xs generalizing acc with
  | nil => rfl
  | cons c rest ih =>
    simp only [List.cons_append, hexFoldAux]
    cases hexDigitVal? c with
    | none => rfl
    | some d => exact ih _

theorem hexFoldAux_natToHex (w n acc : ℕ) (h : n < 16 ^ w) :
    hexFoldAux acc (natToHex n w) = some (acc * 16 ^ w + n) := by
  induction w generalizing n acc with
  | zero =>
    interval_cases n
    simp [natToHex, hexFoldAux]
  | succ w ih =>
    rw [natToHex, hexFoldAux_append,
        ih (n / 16) acc (Nat.div_lt_of_lt_mul (by rw [← pow_succ'] ; exact h))]
    simp only [hexFoldAux, hexDigitVal_hexChar (Nat.mod_lt n (by norm_num : (0:ℕ) < 16))]
    congr 1
    rw [pow_succ]
    have := Nat.div_add_mod n 16
    ring_nf
    omega

theorem hexDigits_natToHex {w n : ℕ} (hw : 0 < w) (h : n < 16 ^ w) :
    hexDigits? (natToHex n w) = some n := by
  rw [hexDigits?, if_neg, hexFoldAux_natToHex w n 0 h, Nat.zero_mul, Nat.zero_add]
  intro hnil
  have h1 := natToHex_length n w
  rw [hnil] at h1
  have h2 : 0 = w := h1
  omega

theorem hexDigitsPrefixed_of_hex {s : List Char} (h : ∀ c ∈ s, IsUpperHexDigit c) :
    hexDigitsPrefixed? s = hexDigits? s := by
  unfold hexDigitsPrefixed?
  split
  · next x rest =>
    rw [if_neg]
    exact (h x (by simp)).ne_x
  · rfl

theorem pyIntHex_natToHex {n w : ℕ} (hw : 0 < w) (h : n < 16 ^ w) :
    pyIntHex? (natToHex n w) = some (n : ℤ) := by
  have hhex := natToHex_mem_hex n w
  have hne : natToHex n w ≠ [] := by
    intro hnil
    have h1 := natToHex_length n w
    rw [hnil] at h1
    have h2 : 0 = w := h1
    omega
  obtain ⟨c, rest, hcr⟩ := List.exists_cons_of_ne_nil hne
  have hc : IsUpperHexDigit c := by
    rw [hcr] at hhex
    exact hhex c (by simp)
  rw [pyIntHex?, pyStrip_of_hex hhex, hcr]
  have hplus := hc.ne_plus
  have hminus := hc.ne_minus
  split
  · next heq => exact absurd (List.cons.inj heq).1 hplus
  · next heq => exact absurd (List.cons.inj heq).1 hminus
  · rw [← hcr, hexDigitsPrefixed_of_hex hhex, hexDigits_natToHex hw h]
    rfl

/-! ## Slice lemmas -/

theorem pyBound_natCast (n k : ℕ) : pyBound n (k : ℤ) = min k n := by
  unfold pyBound
  rw [if_neg (by omega : ¬((k : ℤ) < 0))]
  rw [Int.toNat_natCast]

theorem pySlice_append_take (pre rest : List Char) (k : ℕ) (hk : k ≤ rest.length) :
    pySlice (pre ++ rest) (pre.length : ℤ) ((pre.length : ℤ) + (k : ℤ)) = rest.take k := by
  unfold pySlice
  rw [(by push_cast ; ring : (pre.length : ℤ) + (k : ℤ) = ((pre.length + k : ℕ) : ℤ)),
      pyBound_natCast, pyBound_natCast]
  have hlen : (pre ++ rest).length = pre.length + rest.length := List.length_append _ _
  rw [hlen, min_eq_left (by omega), min_eq_left (by omega), List.take_append,
      List.drop_left]

/-! ## Claim C9: shape of the Get request frame and its DATALEN -/

/-- `to_bytes(2, 'big')` on a 16-bit value. -/
theorem intToBytes_two {t : ℕ} (ht : t < 65536) :
    intToBytes? (t : ℤ) 2 = some [t / 256, t % 256] := by
  unfold intToBytes?
  rw [if_pos ⟨by omega, by push_cast ; omega⟩, Int.toNat_natCast]
  have h2 : natToBytes t 2 = [t / 256, t % 256] := by
    show (natToBytes (t / 256 / 256) 0 ++ [t / 256 % 256]) ++ [t % 256] = _
    rw [Nat.mod_eq_of_lt (by omega : t / 256 < 256)]
    rfl
  rw [h2]

/-- `to_bytes(1, 'big')` on a byte value. -/
theorem intToBytes_one {e : ℕ} (he : e < 256) :
    intToBytes? (e : ℤ) 1 = some [e] := by
  unfold intToBytes?
  rw [if_pos ⟨by omega, by push_cast ; omega⟩, Int.toNat_natCast]
  have h1 : natToBytes e 1 = [e] := by
    show natToBytes (e / 256) 0 ++ [e % 256] = _
    rw [Nat.mod_eq_of_lt he]
    rfl
  rw [h1]

/-- **C9.** For every 16-bit transaction id `t` and every one-byte property
code `e`, the Get request frame built by `get_property` before sending is
exactly the 14 bytes `10 81 ‖ t (2 bytes big-endian) ‖ 05 FF 01 ‖ 02 88 01 ‖
62 ‖ 01 ‖ e ‖ 00`, and the `DATALEN` text sent with it is that frame's byte
length formatted as 4 upper-case hex digits — hence `000E` for every Get. -/
theorem claim9_get_frame (t e : ℕ) (epcStr : List Char)
    (ht : t < 65536) (hepc : pyIntHex? epcStr = some (e : ℤ)) (he : e < 256) :
    build_get_frame (t : ℤ) epcStr =
      some ([0x10, 0x81] ++ [t / 256, t % 256] ++ [0x05, 0xFF, 0x01] ++
            [0x02, 0x88, 0x01] ++ [0x62] ++ [0x01] ++ [e] ++ [0x00]) ∧
    ([0x10, 0x81] ++ [t / 256, t % 256] ++ [0x05, 0xFF, 0x01] ++
       [0x02, 0x88, 0x01] ++ [0x62] ++ [0x01] ++ [e] ++ [0x00] : List ℕ).length = 14 ∧
    datalen_hex_str
      ([0x10, 0x81] ++ [t / 256, t % 256] ++ [0x05, 0xFF, 0x01] ++
       [0x02, 0x88, 0x01] ++ [0x62] ++ [0x01] ++ [e] ++ [0x00]) = ['0', '0', '0', 'E'] := by
  have hlen : ([0x10, 0x81] ++ [t / 256, t % 256] ++ [0x05, 0xFF, 0x01] ++
      [0x02, 0x88, 0x01] ++ [0x62] ++ [0x01] ++ [e] ++ [0x00] : List ℕ).length = 14 := by
    simp
  refine ⟨?_, hlen, ?_⟩
  · simp only [build_get_frame, hepc, intToBytes_two ht, intToBytes_one he,
        Option.some_bind]
  · rw [datalen_hex_str, hlen]
    decide

/-- Witness for C9 at `t = 1`, `e = E7`. -/
theorem claim9_get_frame_witness :
    build_get_frame ((1 : ℕ) : ℤ) ['E', '7'] =
      some ([0x10, 0x81] ++ [1 / 256, 1 % 256] ++ [0x05, 0xFF, 0x01] ++
            [0x02, 0x88, 0x01] ++ [0x62] ++ [0x01] ++ [0xE7] ++ [0x00]) ∧
    datalen_hex_str
      ([0x10, 0x81] ++ [1 / 256, 1 % 256] ++ [0x05, 0xFF, 0x01] ++
       [0x02, 0x88, 0x01] ++ [0x62] ++ [0x01] ++ [0xE7] ++ [0x00]) = ['0', '0', '0', 'E'] := by
  have h := claim9_get_frame 1 0xE7 ['E', '7'] (by decide) (by decide) (by decide)
  exact ⟨h.1, h.2.2⟩

/-! ## Claim C7: unit table and cumulative-energy decoding -/

theorem tableLookup_pos {k : List Char} {m : ℚ}
    (h : tableLookup POWER_UNITS k = some m) : 0 < m := by
  simp only [POWER_UNITS, tableLookup] at h
  repeat' split at h
  all_goals simp_all
  all_goals rw [← h]
  all_goals norm_num

/-- **C7.** For every unit code `u` in the published table
`{00→1, 01→0.1, 02→0.01, 03→0.001, 04→0.0001, 0A→10, 0B→100, 0C→1000,
0D→10000}` and every raw cumulative reading `r`, decoding the unit yields
`unit[u]` and decoding cumulative energy yields `r × unit[u]`, rounded to
`−log10(unit[u])` decimals when `unit[u] < 1`; every unit code outside the
table yields the default multiplier 1. -/
theorem claim7_power_unit (u : List Char) (m : ℚ) (s : List Char) (r : ℤ)
    (hu : tableLookup POWER_UNITS (pyUpper u) = some m)
    (hs : pyIntHex? s = some r) (hsne : s ≠ []) :
    parse_power_unit (some u) = m ∧
    parse_cumulative_power (some s) (parse_power_unit (some u)) =
      some (if m < 1 then roundTo (r * m) (-(Int.clog 10 m)).toNat else r * m) ∧
    (∀ u', tableLookup POWER_UNITS (pyUpper (u'.getD [])) = none →
      parse_power_unit u' = 1) := by
  have hm : 0 < m := tableLookup_pos hu
  have hune : u ≠ [] := by
    rintro rfl
    rw [show tableLookup POWER_UNITS (pyUpper []) = none from rfl] at hu
    exact Option.noConfusion hu
  have h1 : parse_power_unit (some u) = m := by
    show (if u = [] then 1 else (tableLookup POWER_UNITS (pyUpper u)).getD 1) = m
    rw [if_neg hune, hu]
    rfl
  refine ⟨h1, ?_, ?_⟩
  · show (if s = [] then none
      else (pyIntHex? s).bind fun v => pyRoundMult? (v * parse_power_unit (some u))
        (parse_power_unit (some u))) = _
    rw [if_neg hsne, hs, Option.some_bind, h1, pyRoundMult?]
    split
    · rw [if_neg (not_le.mpr hm)]
    · rfl
  · intro u' hu'
    match u' with
    | none => rfl
    | some s' =>
      show (if s' = [] then 1 else (tableLookup POWER_UNITS (pyUpper s')).getD 1) = 1
      rcases eq_or_ne s' [] with rfl | hne
      · rw [if_pos rfl]
      · rw [if_neg hne]
        have h0 : tableLookup POWER_UNITS (pyUpper s') = none := hu'
        rw [h0]
        rfl

/-- Witness for C7 at `u = "01"` (multiplier 0.1), `s = "03E8"` (raw 1000),
and the out-of-table code `"FF"`. -/
theorem claim7_power_unit_witness :
    parse_power_unit (some ['0', '1']) = 1/10 ∧
    parse_cumulative_power (some ['0', '3', 'E', '8']) (parse_power_unit (some ['0', '1'])) =
      some (if (1/10 : ℚ) < 1 then
              roundTo ((1000 : ℤ) * (1/10)) (-(Int.clog 10 (1/10 : ℚ))).toNat
            else (1000 : ℤ) * (1/10)) ∧
    parse_power_unit (some ['F', 'F']) = 1 := by
  have h := claim7_power_unit ['0', '1'] (1/10) ['0', '3', 'E', '8'] 1000
    (by rfl) (by decide) (by decide)
  exact ⟨h.1, h.2.1, h.2.2 (some ['F', 'F']) (by rfl)⟩

/-! ## Claim C8: instantaneous-current decoding -/

/-- The value of a 16-bit big-endian halfword read as two's complement. -/
def signed16 (r : ℕ) : ℤ :=
  if 2 ^ 15 ≤ r then (r : ℤ) - 2 ^ 16 else (r : ℤ)

theorem land_natCast_pow15 (r : ℕ) :
    Int.land (r : ℤ) ((2 : ℤ) ^ 15) = ((Nat.land r (2 ^ 15) : ℕ) : ℤ) := by
  have h : ((2 : ℤ) ^ 15) = ((2 ^ 15 : ℕ) : ℤ) := by push_cast
  rw [h]
  rfl

theorem parseSignedHex_natToHex4 {r : ℕ} (hr : r < 65536) :
    parseSignedHex? (natToHex r 4) = some (signed16 r) := by
  unfold parseSignedHex?
  rw [pyIntHex_natToHex (by norm_num) (by norm_num ; omega), Option.map_some']
  congr 1
  rw [natToHex_length]
  show (if Int.land (r : ℤ) ((2 : ℤ) ^ (4 * 4 - 1)) ≠ 0 then (r : ℤ) - 2 ^ (4 * 4) else (r : ℤ)) = _
  rw [show (4 * 4 - 1 : ℕ) = 15 from rfl, show (4 * 4 : ℕ) = 16 from rfl,
      land_natCast_pow15]
  have hbit : Nat.land r (2 ^ 15) = 0 ↔ r < 2 ^ 15 := by
    show (r &&& 2 ^ 15) = 0 ↔ r < 2 ^ 15
    rw [Nat.and_two_pow, Nat.testBit_to_div_mod]
    rcases Nat.lt_or_ge r (2 ^ 15) with hlt | hge
    · have h0 : r / 2 ^ 15 = 0 := Nat.div_eq_of_lt hlt
      simp [h0, hlt]
      omega
    · have h1 : r / 2 ^ 15 = 1 := by omega
      simp only [h1]
      norm_num
      omega
  unfold signed16
  by_cases hge : 2 ^ 15 ≤ r
  · have hne : Nat.land r (2 ^ 15) ≠ 0 := fun h0 => absurd (hbit.1 h0) (not_lt.2 hge)
    rw [if_pos (by exact_mod_cast hne), if_pos hge]
  · have h0 : Nat.land r (2 ^ 15) = 0 := hbit.2 (not_le.1 hge)
    rw [h0, if_neg (by simp), if_neg hge]

theorem pySlice_first_four {a b : List Char} (ha : a.length = 4) (hb : b.length = 4) :
    pySlice (a ++ b) 0 4 = a := by
  unfold pySlice
  have hlen : (a ++ b).length = 8 := by
    rw [List.length_append, ha, hb]
  rw [hlen, show pyBound 8 4 = 4 from rfl, show pyBound 8 0 = 0 from rfl,
      List.drop_zero, ← ha, List.take_left]

theorem pySlice_last_four {a b : List Char} (ha : a.length = 4) (hb : b.length = 4) :
    pySlice (a ++ b) 4 8 = b := by
  unfold pySlice
  have hlen : (a ++ b).length = 8 := by
    rw [List.length_append, ha, hb]
  rw [hlen, show pyBound 8 8 = 8 from rfl, show pyBound 8 4 = 4 from rfl,
      List.take_of_length_le (le_of_eq hlen), ← ha, List.drop_left]

theorem pyUpper_natToHex (n w : ℕ) : pyUpper (natToHex n w) = natToHex n w :=
  pyUpper_of_hex (natToHex_mem_hex n w)

theorem natToHex4_inj {t : ℕ} (ht : t < 65536) (v : ℕ) (hv : v < 65536)
    (h : natToHex t 4 = natToHex v 4) : t = v := by
  have h1 := pyIntHex_natToHex (n := t) (w := 4) (by norm_num) (by norm_num ; omega)
  have h2 := pyIntHex_natToHex (n := v) (w := 4) (by norm_num) (by norm_num ; omega)
  rw [h] at h1
  rw [h1] at h2
  exact_mod_cast Option.some.inj h2

/-- **C8.** For every 4-byte E8 payload, the current decoder splits it into
two 2-byte signed big-endian halfwords and divides each by 10; if the raw
T-phase halfword equals `0x7FFE` the result is single-phase
(`current_t_a = null`, representative `current_a` = R-phase value); otherwise
`current_a = R + T`; all reported amperes are rounded to one decimal. -/
theorem claim8_current (r t : ℕ) (hr : r < 65536) (ht : t < 65536) :
    parse_current_value (some (natToHex r 4 ++ natToHex t 4)) =
      (if t = 0x7FFE then
        some ⟨roundTo ((signed16 r : ℚ) / 10) 1, roundTo ((signed16 r : ℚ) / 10) 1, none⟩
      else
        some ⟨roundTo ((signed16 r : ℚ) / 10 + (signed16 t : ℚ) / 10) 1,
              roundTo ((signed16 r : ℚ) / 10) 1,
              some (roundTo ((signed16 t : ℚ) / 10) 1)⟩) := by
  have ha : (natToHex r 4).length = 4 := natToHex_length r 4
  have hb : (natToHex t 4).length = 4 := natToHex_length t 4
  have hlen : (natToHex r 4 ++ natToHex t 4).length = 8 := by
    rw [List.length_append, ha, hb]
  have hne : natToHex r 4 ++ natToHex t 4 ≠ [] := by
    intro h0
    rw [h0] at hlen
    exact absurd hlen.symm (by decide)
  unfold parse_current_value
  simp only [Option.some_bind, if_neg hne, if_pos hlen, pySlice_first_four ha hb,
             pySlice_last_four ha hb, pyUpper_natToHex,
             parseSignedHex_natToHex4 hr, parseSignedHex_natToHex4 ht]
  by_cases h7 : t = 0x7FFE
  · subst h7
    rw [if_pos (by decide), if_pos rfl]
  · rw [if_neg, if_neg h7]
    intro hcontra
    exact h7 (natToHex4_inj ht 0x7FFE (by norm_num) (by rw [hcontra] ; decide))

/-- Witness for C8 at `r = 100` (10.0 A) and T-phase `0x7FFE` (single-phase). -/
theorem claim8_current_witness :
    parse_current_value (some (natToHex 100 4 ++ natToHex 0x7FFE 4)) =
      some ⟨roundTo ((signed16 100 : ℚ) / 10) 1,
            roundTo ((signed16 100 : ℚ) / 10) 1, none⟩ :=
  (claim8_current 100 0x7FFE (by decide) (by decide)).trans (by rw [if_pos rfl])


/-! ## Claim C2: response-wait filtering -/

/-- **C2.** During the response wait: (1) the transaction layer returns a
received frame only if that frame's TID equals the outstanding transaction
id, its ESV equals the expected response code, and at least one of its
property entries has the requested EPC; (2) every `ERXUDP` whose TID or EPC
does not match is skipped and waiting continues with the remaining
iterations; (3) a frame with matching TID whose ESV has high nibble 5 (SNA)
terminates the transaction with "no data" (`none`) without retry. -/
theorem claim2_response_wait :
    (∀ (iters : List SerialIter) (pc tid esv s : List Char),
      wait_for_echonet_response iters pc tid esv = some s →
      ∃ f, parse_echonet_frame s = some f ∧ f.TID = tid ∧
        pyUpper f.ESV = pyUpper esv ∧ ∃ p ∈ f.properties, p.EPC = pyUpper pc) ∧
    (∀ (line : List Char) (rest : List SerialIter) (pc tid esv : List Char)
      (f : EchonetFrame),
      (['E', 'R', 'X', 'U', 'D', 'P'] : List Char).isPrefixOf line = true →
      9 ≤ (pySplitSpace (pyStrip line)).length →
      parse_echonet_frame ((pySplitSpace (pyStrip line)).getD 8 []) = some f →
      (f.TID ≠ tid ∨
        (pyUpper f.ESV = pyUpper esv ∧ ¬∃ p ∈ f.properties, p.EPC = pyUpper pc)) →
      wait_for_echonet_response ((true, line) :: rest) pc tid esv =
        wait_for_echonet_response rest pc tid esv) ∧
    (∀ (line : List Char) (rest : List SerialIter) (pc tid esv : List Char)
      (f : EchonetFrame),
      (esv = ['7', '2'] ∨ esv = ['7', '1']) →
      (['E', 'R', 'X', 'U', 'D', 'P'] : List Char).isPrefixOf line = true →
      9 ≤ (pySplitSpace (pyStrip line)).length →
      parse_echonet_frame ((pySplitSpace (pyStrip line)).getD 8 []) = some f →
      f.TID = tid →
      (['5'] : List Char).isPrefixOf f.ESV = true →
      wait_for_echonet_response ((true, line) :: rest) pc tid esv = none) := by
  refine ⟨?_, ?_, ?_⟩
  · intro iters pc tid esv s h
    induction iters with
    | nil => exact Option.noConfusion h
    | cons it rest ih =>
      obtain ⟨run, line⟩ := it
      simp only [wait_for_echonet_response] at h
      split at h
      · exact Option.noConfusion h
      · split at h
        · exact ih h
        · split at h
          · split at h
            · split at h
              · exact ih h
              · next f heq =>
                split at h
                · exact ih h
                · split at h
                  · split at h
                    · next hany =>
                      rename_i hTne hEsv
                      refine ⟨f, ?_, not_not.1 hTne, hEsv, ?_⟩
                      · rw [← Option.some.inj h]
                        exact heq
                      · simpa [List.any_eq_true] using hany
                    · exact ih h
                  · split at h
                    · exact Option.noConfusion h
                    · exact ih h
            · exact ih h
          · split at h
            · exact Option.noConfusion h
            · exact ih h
  · intro line rest pc tid esv f hpre hparts hf hmis
    have hlne : line ≠ [] := by
      intro h0
      rw [h0] at hpre
      exact absurd hpre (by decide)
    simp only [wait_for_echonet_response, Bool.not_true, if_neg hlne, if_pos hpre,
      if_pos hparts, hf]
    rw [if_neg (by decide : ¬(false = true))]
    rcases hmis with hT | ⟨hE, hP⟩
    · rw [if_pos hT]
    · by_cases hT : f.TID ≠ tid
      · rw [if_pos hT]
      · rw [if_neg hT, if_pos hE,
          if_neg (show ¬((f.properties.any fun p => decide (p.EPC = pyUpper pc)) = true) from
            fun hany => hP (by simpa [List.any_eq_true] using hany))]
  · intro line rest pc tid esv f hesv hpre hparts hf htid hsna
    have hlne : line ≠ [] := by
      intro h0
      rw [h0] at hpre
      exact absurd hpre (by decide)
    have hesvne : ¬ pyUpper f.ESV = pyUpper esv := by
      obtain ⟨t, ht⟩ := List.isPrefixOf_iff_prefix.1 hsna
      intro hup
      rw [← ht, List.singleton_append] at hup
      have hup2 : '5' :: pyUpper t = pyUpper esv := hup
      rcases hesv with rfl | rfl
      · exact absurd (List.cons.inj hup2).1 (by decide)
      · exact absurd (List.cons.inj hup2).1 (by decide)
    simp only [wait_for_echonet_response, Bool.not_true, if_neg hlne, if_pos hpre,
      if_pos hparts, hf, if_neg hesvne, if_pos hsna]
    rw [if_neg (by decide : ¬(false = true)), if_neg (not_not_intro htid)]

/-- A matching Get response line (TID 0001, ESV 72, EPC E7). -/
def c2LineOk : List Char :=
  "ERXUDP FE80 FE80 0E1A 0E1A 00 1 0012 1081000102880105FF017201E70400000096".toList

/-- Its ECHONET payload. -/
def c2PayloadOk : List Char :=
  "1081000102880105FF017201E70400000096".toList

/-- A TID-mismatch line (TID 0002). -/
def c2LineMismatch : List Char :=
  "ERXUDP FE80 FE80 0E1A 0E1A 00 1 0012 1081000202880105FF017201E70400000096".toList

/-- An SNA response line (TID 0001, ESV 52). -/
def c2LineSna : List Char :=
  "ERXUDP FE80 FE80 0E1A 0E1A 00 1 0012 1081000102880105FF015201E70400000096".toList

/-- Witness for C2: the accepted, skipped and SNA-terminated cases each at a
concrete `ERXUDP` line. -/
theorem claim2_response_wait_witness :
    (∃ f, parse_echonet_frame c2PayloadOk = some f ∧ f.TID = ['0', '0', '0', '1'] ∧
      pyUpper f.ESV = pyUpper ['7', '2'] ∧
      ∃ p ∈ f.properties, p.EPC = pyUpper ['E', '7']) ∧
    wait_for_echonet_response [(true, c2LineMismatch)] ['E', '7'] ['0', '0', '0', '1'] ['7', '2'] =
      wait_for_echonet_response [] ['E', '7'] ['0', '0', '0', '1'] ['7', '2'] ∧
    wait_for_echonet_response [(true, c2LineSna)] ['E', '7'] ['0', '0', '0', '1'] ['7', '2'] =
      none := by
  refine ⟨?_, ?_, ?_⟩
  · exact claim2_response_wait.1 [(true, c2LineOk)] ['E', '7'] ['0', '0', '0', '1']
      ['7', '2'] c2PayloadOk (by decide)
  · exact claim2_response_wait.2.1 c2LineMismatch [] ['E', '7'] ['0', '0', '0', '1']
      ['7', '2']
      ⟨['1', '0', '8', '1'], ['0', '0', '0', '2'], "028801".toList, "05FF01".toList,
        ['7', '2'], 1, [⟨['E', '7'], 4, "00000096".toList⟩]⟩
      (by decide) (by decide) (by decide) (Or.inl (by decide))
  · exact claim2_response_wait.2.2 c2LineSna [] ['E', '7'] ['0', '0', '0', '1']
      ['7', '2']
      ⟨['1', '0', '8', '1'], ['0', '0', '0', '1'], "028801".toList, "05FF01".toList,
        ['5', '2'], 1, [⟨['E', '7'], 4, "00000096".toList⟩]⟩
      (Or.inl rfl) (by decide) (by decide) (by decide) (by decide) (by decide)

/-! ## Claim C10: the running flag gates PANA-join success -/

/-- **C10.** `initialize` can return success (and set `connected`) only from
inside the `EVENT 25` wait loop, and every iteration of that loop first
checks the process-wide `running` flag: if the flag is false at a check that
is actually reached (no earlier iteration saw `EVENT 24`/`EVENT 25` and every
earlier check passed), the loop returns failure with `connected` still false.
In particular a client whose output thread was never started — the only
place that sets `running` to true — has the flag false at every check and can
never reach the connected state. -/
theorem claim10_running_gates_join :
    (∀ (pre : List SerialIter) (x : SerialIter) (rest : List SerialIter),
      (∀ p ∈ pre, p.1 = true ∧
        ¬((['E', 'V', 'E', 'N', 'T', ' ', '2', '4'] : List Char).isPrefixOf p.2 = true) ∧
        ¬((['E', 'V', 'E', 'N', 'T', ' ', '2', '5'] : List Char).isPrefixOf p.2 = true)) →
      x.1 = false →
      wait_event25 (pre ++ x :: rest) false = (false, false)) ∧
    (∀ iters : List SerialIter, (∀ p ∈ iters, p.1 = false) →
      wait_event25 iters false = (false, false)) := by
  constructor
  · intro pre x rest hpre hx
    induction pre with
    | nil =>
      obtain ⟨run, line⟩ := x
      simp only at hx
      subst hx
      simp [wait_event25]
    | cons p ps ih =>
      obtain ⟨run, line⟩ := p
      obtain ⟨hrun, h24, h25⟩ := hpre (run, line) (List.mem_cons_self _ _)
      simp only at hrun
      subst hrun
      simp only [List.cons_append, wait_event25, Bool.not_true,
        if_neg (by decide : ¬(false = true)), if_neg h24, if_neg h25]
      exact ih fun p hp => hpre p (List.mem_cons_of_mem _ hp)
  · intro iters hall
    induction iters with
    | nil => rfl
    | cons p ps ih =>
      obtain ⟨run, line⟩ := p
      have hrun := hall (run, line) (List.mem_cons_self _ _)
      simp only at hrun
      subst hrun
      simp [wait_event25]

/-- Witness for C10: one passed check, then a check with `running = false`. -/
theorem claim10_running_gates_join_witness :
    wait_event25 [(true, "EVER 1.2.3".toList), (false, [])] false = (false, false) ∧
    wait_event25 [(false, "EVENT 25".toList)] false = (false, false) :=
  ⟨claim10_running_gates_join.1 [(true, "EVER 1.2.3".toList)] (false, []) []
      (by decide) rfl,
   claim10_running_gates_join.2 [(false, "EVENT 25".toList)] (by decide)⟩

/-! ## Claim C6: exit codes -/

/-- **C6 counterexample.** On a run where `SmartMeterClient.initialize` fails,
`main` logs the failure and plain-returns (`None`), so the process exit code
is 0 — not non-zero as claimed. -/
theorem claim6_exit_counterexample : process_exit_code (main_return false) = 0 :=
  rfl

/-- **C6 (amended).** The process terminates with exit code 0 both on normal
shutdown and on session-initialisation failure; an initialisation failure is
reported only through the error log, never through the exit status. -/
theorem claim6_exit_amended (initOk : Bool) :
    process_exit_code (main_return initOk) = 0 := by
  cases initOk <;> rfl

/-! ## Claim C4: frame-parse rejection and truncation behaviour -/

theorem pySlice_sub (pre rest : List Char) (a b : ℕ) (hab : a ≤ b)
    (hb : b ≤ rest.length) :
    pySlice (pre ++ rest) ((pre.length : ℤ) + (a : ℕ)) ((pre.length : ℤ) + (b : ℕ)) =
      (rest.drop a).take (b - a) := by
  unfold pySlice
  rw [(by push_cast ; ring : (pre.length : ℤ) + (a : ℕ) = ((pre.length + a : ℕ) : ℤ)),
      (by push_cast ; ring : (pre.length : ℤ) + (b : ℕ) = ((pre.length + b : ℕ) : ℤ)),
      pyBound_natCast, pyBound_natCast, List.length_append,
      min_eq_left (by omega), min_eq_left (by omega),
      List.take_append, List.drop_append, List.drop_take]

/-- Hex encoding of one announced property tuple: `EPC ‖ PDC ‖ EDT`. -/
def encodeProp (epc pdc : ℕ) (edt : List Char) : List Char :=
  natToHex epc 2 ++ (natToHex pdc 2 ++ edt)

/-- Hex encoding of a list of property tuples. -/
def encodeProps : List (ℕ × ℕ × List Char) → List Char
  | [] => []
  | (epc, pdc, edt) :: rest => encodeProp epc pdc edt ++ encodeProps rest

/-- Well-formed property tuples: byte-sized EPC and PDC, and an EDT hex
string of exactly `2 * PDC` characters. -/
def PropsWF (ps : List (ℕ × ℕ × List Char)) : Prop :=
  ∀ p ∈ ps, p.1 < 256 ∧ p.2.1 < 256 ∧ p.2.2.length = 2 * p.2.1

instance (ps : List (ℕ × ℕ × List Char)) : Decidable (PropsWF ps) := by
  unfold PropsWF
  infer_instance

/-- The dictionary `parse_echonet_frame` builds for one encoded tuple. -/
def decodeProp (p : ℕ × ℕ × List Char) : EchoProp :=
  ⟨natToHex p.1 2, (p.2.1 : ℤ), pyUpper p.2.2⟩

/-- A trailing fragment that truncates the property list: either fewer than
the 4 characters of `EPC ‖ PDC`, or a parsable `PDC` announcing more EDT
characters than remain. -/
def TruncatedTail (junk : List Char) : Prop :=
  junk.length < 4 ∨
    (∃ pdc : ℤ, pyIntHex? ((junk.drop 2).take 2) = some pdc ∧
      (junk.length : ℤ) < 4 + pdc * 2)

theorem encodeProp_length (epc pdc : ℕ) (edt : List Char) :
    (encodeProp epc pdc edt).length = 4 + edt.length := by
  simp [encodeProp, natToHex_length]
  omega

/-- The one-step unfolding of the property loop. -/
theorem parsePropsAux_succ (s : List Char) (fuel : ℕ) (pos : ℤ) (acc : List EchoProp) :
    parsePropsAux s (fuel + 1) pos acc =
      (if (s.length : ℤ) < pos + 4 then some acc
       else
         (pyIntHex? (pySlice s (pos + 2) (pos + 4))).bind fun pdc =>
           if (s.length : ℤ) < pos + 4 + pdc * 2 then some acc
           else
             parsePropsAux s fuel (pos + 4 + pdc * 2)
               (acc ++ [⟨pyUpper (pySlice s pos (pos + 2)), pdc,
                         pyUpper (pySlice s (pos + 4) (pos + 4 + pdc * 2))⟩])) := rfl


/-- A truncated tail after zero properties: the loop breaks at once and
returns the accumulator. -/
theorem parsePropsAux_encode_nil (pre junk : List Char) (acc : List EchoProp) (k : ℕ)
    (htr : TruncatedTail junk) :
    parsePropsAux (pre ++ junk) (k + 1) (pre.length : ℤ) acc = some acc := by
  rw [parsePropsAux_succ]
  by_cases h4 : junk.length < 4
  · rw [if_pos (by push_cast [List.length_append] ; omega)]
  · obtain ⟨pdc, hpdc, hlen⟩ := htr.resolve_left h4
    have hsl := pySlice_sub pre junk 2 4 (by omega) (by omega)
    push_cast at hsl
    rw [if_neg (by push_cast [List.length_append] ; omega), hsl, hpdc,
      Option.some_bind]
    rw [if_pos (by push_cast [List.length_append] ; omega)]

/-- The property loop on a well-formed encoded property list followed by a
truncated tail: every complete tuple is decoded, then the loop breaks at the
truncated tuple and returns exactly the decoded tuples. -/
theorem parsePropsAux_encode :
    ∀ (ps : List (ℕ × ℕ × List Char)) (pre junk : List Char) (acc : List EchoProp)
      (k : ℕ), PropsWF ps → TruncatedTail junk →
      parsePropsAux (pre ++ (encodeProps ps ++ junk)) (ps.length + (k + 1))
        (pre.length : ℤ) acc = some (acc ++ ps.map decodeProp) := by
  intro ps
  induction ps with
  | nil =>
    intro pre junk acc k _ htr
    simpa [encodeProps] using parsePropsAux_encode_nil pre junk acc k htr
  | cons p ps ih =>
    intro pre junk acc k hwf htr
    obtain ⟨epc, pdc, edt⟩ := p
    obtain ⟨hepc, hpdc, hedt⟩ := hwf (epc, pdc, edt) (List.mem_cons_self _ _)
    simp only at hepc hpdc hedt
    have hwf' : PropsWF ps := fun q hq => hwf q (List.mem_cons_of_mem _ hq)
    have hfuel : (List.length ((epc, pdc, edt) :: ps)) + (k + 1) =
        (ps.length + (k + 1)) + 1 := by
      simp only [List.length_cons]
      omega
    rw [hfuel]
    have hshape : encodeProps ((epc, pdc, edt) :: ps) ++ junk =
        natToHex epc 2 ++ (natToHex pdc 2 ++ (edt ++ (encodeProps ps ++ junk))) := by
      simp [encodeProps, encodeProp, List.append_assoc]
    rw [hshape]
    set rest : List Char :=
      natToHex epc 2 ++ (natToHex pdc 2 ++ (edt ++ (encodeProps ps ++ junk))) with hrest
    have hrlen : rest.length = 4 + edt.length + (encodeProps ps ++ junk).length := by
      rw [hrest]
      simp [natToHex_length]
      omega
    have hdrop2 : rest.drop 2 = natToHex pdc 2 ++ (edt ++ (encodeProps ps ++ junk)) := by
      rw [hrest]
      exact List.drop_left' (natToHex_length epc 2)
    have hslpdc := pySlice_sub pre rest 2 4 (by omega) (by omega)
    push_cast at hslpdc
    rw [hdrop2, List.take_left' (natToHex_length pdc 2)] at hslpdc
    have hslepc := pySlice_sub pre rest 0 2 (by omega) (by omega)
    push_cast at hslepc
    rw [List.drop_zero, hrest, List.take_left' (natToHex_length epc 2)] at hslepc
    rw [← hrest] at hslepc
    simp only [add_zero] at hslepc
    have hsledt := pySlice_sub pre rest 4 (4 + 2 * pdc) (by omega) (by omega)
    push_cast at hsledt
    have hdrop4 : rest.drop 4 = edt ++ (encodeProps ps ++ junk) := by
      rw [show (4 : ℕ) = 2 + 2 from rfl, ← List.drop_drop, hdrop2]
      exact List.drop_left' (natToHex_length pdc 2)
    rw [hdrop4, show 4 + 2 * pdc - 4 = 2 * pdc from by omega,
      List.take_left' hedt] at hsledt
    rw [show ((pre.length : ℤ) + (4 + 2 * (pdc : ℤ))) = (pre.length : ℤ) + 4 + (pdc : ℤ) * 2
      from by ring] at hsledt
    rw [parsePropsAux_succ]
    rw [if_neg (by push_cast [List.length_append, hrlen] ; omega), hslpdc,
      pyIntHex_natToHex (by norm_num) (by norm_num ; omega), Option.some_bind,
      if_neg (by push_cast [List.length_append, hrlen] ; omega),
      hslepc, hsledt, pyUpper_natToHex]
    have hre2 : pre ++ rest =
        (pre ++ (natToHex epc 2 ++ (natToHex pdc 2 ++ edt))) ++ (encodeProps ps ++ junk) := by
      rw [hrest]
      simp [List.append_assoc]
    have hpos : (pre.length : ℤ) + 4 + (pdc : ℤ) * 2 =
        (((pre ++ (natToHex epc 2 ++ (natToHex pdc 2 ++ edt))).length : ℕ) : ℤ) := by
      simp [List.length_append, natToHex_length, hedt]
      ring
    rw [hre2, hpos]
    rw [ih (pre ++ (natToHex epc 2 ++ (natToHex pdc 2 ++ edt))) junk
      (acc ++ [EchoProp.mk (natToHex epc 2) (pdc : ℤ) (pyUpper edt)]) k hwf' htr]
    simp [decodeProp]

/-- `s[0:b]` for an in-range upper bound. -/
theorem pySlice_zero (s : List Char) (b : ℕ) (hb : b ≤ s.length) :
    pySlice s 0 ((b : ℕ) : ℤ) = s.take b := by
  unfold pySlice
  rw [show pyBound s.length 0 = 0 from by simp [pyBound], pyBound_natCast,
    min_eq_left hb, List.drop_zero]

/-- Extracting a fixed-position field from a concatenation. -/
theorem pySlice_field (pre mid post : List Char) (a b : ℕ)
    (ha : pre.length = a) (hb : a + mid.length = b) :
    pySlice (pre ++ (mid ++ post)) ((a : ℕ) : ℤ) ((b : ℕ) : ℤ) = mid := by
  subst ha
  subst hb
  have h := pySlice_append_take pre (mid ++ post) mid.length (by simp)
  rw [List.take_left] at h
  push_cast
  exact h

/-- A 24-character frame announcing `OPC = 1` but carrying no property
bytes. -/
def c4Truncated : List Char := "1081000102880105FF017201".toList

/-- **C4 counterexample.** On a frame whose announced property list is
truncated, `parse_echonet_frame` does **not** surface a decode error: it
logs and `break`s, returning a successfully parsed frame with `OPC = 1` and
an empty property list. -/
theorem claim4_truncated_counterexample :
    parse_echonet_frame c4Truncated =
      some ⟨"1081".toList, "0001".toList, "028801".toList, "05FF01".toList,
            "72".toList, 1, []⟩ := by
  decide

/-- Parsing an encoded frame whose property list is truncated after the
well-formed tuples `ps`: the parser returns the frame with exactly the
complete tuples. -/
theorem parse_frame_encode_truncated
    (tid seoj deoj esv : List Char) (opc : ℕ) (ps : List (ℕ × ℕ × List Char))
    (junk : List Char)
    (htid : tid.length = 4) (hseoj : seoj.length = 6) (hdeoj : deoj.length = 6)
    (hesv : esv.length = 2) (hwf : PropsWF ps) (hlt : ps.length < opc)
    (hopc : opc < 256) (htr : TruncatedTail junk) :
    parse_echonet_frame
      (['1', '0', '8', '1'] ++ (tid ++ (seoj ++ (deoj ++ (esv ++
        (natToHex opc 2 ++ (encodeProps ps ++ junk))))))) =
      some ⟨['1', '0', '8', '1'], tid, seoj, deoj, esv, (opc : ℤ),
            ps.map decodeProp⟩ := by
  set s : List Char := ['1', '0', '8', '1'] ++ (tid ++ (seoj ++ (deoj ++ (esv ++
    (natToHex opc 2 ++ (encodeProps ps ++ junk)))))) with hs
  have hslen : s.length = 24 + ((encodeProps ps).length + junk.length) := by
    rw [hs]
    simp [htid, hseoj, hdeoj, hesv, natToHex_length]
    omega
  have ha2 : s = (['1', '0', '8', '1'] ++ tid) ++ (seoj ++ (deoj ++ (esv ++
      (natToHex opc 2 ++ (encodeProps ps ++ junk))))) := by
    rw [hs]
    simp [List.append_assoc]
  have ha3 : s = ((['1', '0', '8', '1'] ++ tid) ++ seoj) ++ (deoj ++ (esv ++
      (natToHex opc 2 ++ (encodeProps ps ++ junk)))) := by
    rw [hs]
    simp [List.append_assoc]
  have ha4 : s = (((['1', '0', '8', '1'] ++ tid) ++ seoj) ++ deoj) ++ (esv ++
      (natToHex opc 2 ++ (encodeProps ps ++ junk))) := by
    rw [hs]
    simp [List.append_assoc]
  have ha5 : s = ((((['1', '0', '8', '1'] ++ tid) ++ seoj) ++ deoj) ++ esv) ++
      (natToHex opc 2 ++ (encodeProps ps ++ junk)) := by
    rw [hs]
    simp [List.append_assoc]
  have ha6 : s = (((((['1', '0', '8', '1'] ++ tid) ++ seoj) ++ deoj) ++ esv) ++
      natToHex opc 2) ++ (encodeProps ps ++ junk) := by
    rw [hs]
    simp [List.append_assoc]
  -- the six header fields
  have hehd : pySlice s 0 4 = ['1', '0', '8', '1'] := by
    have h := pySlice_zero s 4 (by omega)
    push_cast at h
    rw [h, hs, List.take_left' (by simp)]
  have htidsl : pySlice s 4 8 = tid := by
    have h := pySlice_field ['1', '0', '8', '1'] tid (seoj ++ (deoj ++ (esv ++ (natToHex opc 2 ++ (encodeProps ps ++ junk))))) 4 8 (by simp) (by rw [htid])
    push_cast at h
    rw [← hs] at h
    exact h
  have hseojsl : pySlice s 8 14 = seoj := by
    have h := pySlice_field (['1', '0', '8', '1'] ++ tid) seoj (deoj ++ (esv ++ (natToHex opc 2 ++ (encodeProps ps ++ junk)))) 8 14
      (by simp [htid]) (by rw [hseoj])
    push_cast at h
    rw [← ha2] at h
    exact h
  have hdeojsl : pySlice s 14 20 = deoj := by
    have h := pySlice_field ((['1', '0', '8', '1'] ++ tid) ++ seoj) deoj (esv ++ (natToHex opc 2 ++ (encodeProps ps ++ junk))) 14 20
      (by simp [htid, hseoj]) (by rw [hdeoj])
    push_cast at h
    rw [← ha3] at h
    exact h
  have hesvsl : pySlice s 20 22 = esv := by
    have h := pySlice_field (((['1', '0', '8', '1'] ++ tid) ++ seoj) ++ deoj) esv (natToHex opc 2 ++ (encodeProps ps ++ junk)) 20 22
      (by simp [htid, hseoj, hdeoj]) (by rw [hesv])
    push_cast at h
    rw [← ha4] at h
    exact h
  have hopcsl : pySlice s 22 24 = natToHex opc 2 := by
    have h := pySlice_field ((((['1', '0', '8', '1'] ++ tid) ++ seoj) ++ deoj) ++ esv)
      (natToHex opc 2) (encodeProps ps ++ junk) 22 24
      (by simp [htid, hseoj, hdeoj, hesv]) (by rw [natToHex_length])
    push_cast at h
    rw [← ha5] at h
    exact h
  -- run the parser
  have hfuel : opc = ps.length + ((opc - ps.length - 1) + 1) := by omega
  have hpos24 : (24 : ℤ) =
      (((((((['1', '0', '8', '1'] ++ tid) ++ seoj) ++ deoj) ++ esv) ++
        natToHex opc 2).length : ℕ) : ℤ) := by
    simp [htid, hseoj, hdeoj, hesv, natToHex_length]
  have hprops : ∀ fuel, fuel = opc → parsePropsAux s fuel 24 [] = some (ps.map decodeProp) := by
    intro fuel hf
    rw [ha6, hpos24, show fuel = ps.length + ((opc - ps.length - 1) + 1) from by omega]
    exact (parsePropsAux_encode ps _ junk [] _ hwf htr).trans (by simp)
  unfold parse_echonet_frame
  rw [if_neg (by omega), hopcsl, pyIntHex_natToHex (by norm_num) (by norm_num ; omega),
    Option.some_bind, hehd, if_neg (by simp), Int.toNat_natCast,
    hprops opc rfl, Option.some_bind, htidsl, hseojsl, hdeojsl, hesvsl]

/-- **C4 (amended).** The parser rejects (returns `none` for) any frame
shorter than 12 bytes (24 hex characters) or whose `EHD` differs from
`1081`; but for a frame whose property list is truncated — some announced
tuple lacks its `2 + PDC` remaining bytes — the parser does **not** fail:
it stops at the truncated tuple and returns the frame with exactly the
fully-present properties (logging an error). -/
theorem claim4_frame_parse :
    (∀ s : List Char, s.length < 24 → parse_echonet_frame s = none) ∧
    (∀ s : List Char, pySlice s 0 4 ≠ ['1', '0', '8', '1'] →
      parse_echonet_frame s = none) ∧
    (∀ (tid seoj deoj esv : List Char) (opc : ℕ) (ps : List (ℕ × ℕ × List Char))
      (junk : List Char),
      tid.length = 4 → seoj.length = 6 → deoj.length = 6 → esv.length = 2 →
      PropsWF ps → ps.length < opc → opc < 256 → TruncatedTail junk →
      parse_echonet_frame
        (['1', '0', '8', '1'] ++ (tid ++ (seoj ++ (deoj ++ (esv ++
          (natToHex opc 2 ++ (encodeProps ps ++ junk))))))) =
        some ⟨['1', '0', '8', '1'], tid, seoj, deoj, esv, (opc : ℤ),
              ps.map decodeProp⟩) := by
  refine ⟨?_, ?_, ?_⟩
  · intro s hlen
    unfold parse_echonet_frame
    rw [if_pos hlen]
  · intro s hne
    unfold parse_echonet_frame
    by_cases hlen : s.length < 24
    · rw [if_pos hlen]
    · rw [if_neg hlen]
      cases hopc : pyIntHex? (pySlice s 22 24) with
      | none => rfl
      | some opc => rw [Option.some_bind, if_pos hne]
  · intro tid seoj deoj esv opc ps junk htid hseoj hdeoj hesv hwf hlt hopc htr
    exact parse_frame_encode_truncated tid seoj deoj esv opc ps junk
      htid hseoj hdeoj hesv hwf hlt hopc htr

/-- Witness for C4: a short frame rejected, an `EHD`-mismatch frame
rejected, and a concrete truncated frame (one complete property, `OPC = 2`,
3 trailing characters) parsed to its complete prefix. -/
theorem claim4_frame_parse_witness :
    parse_echonet_frame ("1081".toList) = none ∧
    parse_echonet_frame ("1082000102880105FF017201".toList) = none ∧
    parse_echonet_frame
      (['1', '0', '8', '1'] ++ ("0001".toList ++ ("028801".toList ++
        ("05FF01".toList ++ ("72".toList ++
          (natToHex 2 2 ++ (encodeProps [(0xE7, 4, "00000096".toList)] ++
            "E80".toList))))))) =
      some ⟨['1', '0', '8', '1'], "0001".toList, "028801".toList,
            "05FF01".toList, "72".toList, (2 : ℤ),
            [(0xE7, 4, "00000096".toList)].map decodeProp⟩ := by
  refine ⟨?_, ?_, ?_⟩
  · exact claim4_frame_parse.1 ("1081".toList) (by decide)
  · exact claim4_frame_parse.2.1 ("1082000102880105FF017201".toList) (by decide)
  · exact claim4_frame_parse.2.2 ("0001".toList) ("028801".toList)
      ("05FF01".toList) ("72".toList) 2 [(0xE7, 4, "00000096".toList)]
      ("E80".toList) (by decide) (by decide) (by decide) (by decide)
      (by decide) (by decide) (by decide) (Or.inl (by decide))

/-! ## Claim C5: E2 payload length requirement and reading extraction -/

/-- Hex encoding of one half-hour slot: the sentinel for "no data", else the
reading as 8 upper-case hex characters. -/
def encodeReading : Option ℕ → List Char
  | none => ['F', 'F', 'F', 'F', 'F', 'F', 'F', 'E']
  | some v => natToHex v 8

/-- Hex encoding of a reading list. -/
def encodeReadings (rs : List (Option ℕ)) : List Char :=
  (rs.map encodeReading).flatten

/-- Well-formed readings: 32-bit values distinct from the sentinel. -/
def ReadingsWF (rs : List (Option ℕ)) : Prop :=
  ∀ v : ℕ, some v ∈ rs → v < 2 ^ 32 ∧ v ≠ 0xFFFFFFFE

instance (rs : List (Option ℕ)) : Decidable (ReadingsWF rs) := by
  unfold ReadingsWF
  have : (∀ r ∈ rs, ∀ v : ℕ, r = some v → v < 2 ^ 32 ∧ v ≠ 0xFFFFFFFE) ↔
      (∀ v : ℕ, some v ∈ rs → v < 2 ^ 32 ∧ v ≠ 0xFFFFFFFE) := by
    constructor
    · intro h v hv
      exact h (some v) hv v rfl
    · intro h r hr v hrv
      exact h v (hrv ▸ hr)
  exact decidable_of_iff _ this

theorem encodeReading_length (r : Option ℕ) : (encodeReading r).length = 8 := by
  cases r with
  | none => rfl
  | some v => exact natToHex_length v 8

theorem encodeReadings_length (rs : List (Option ℕ)) :
    (encodeReadings rs).length = 8 * rs.length := by
  induction rs with
  | nil => rfl
  | cons r rest ih =>
    simp [encodeReadings, List.flatten_cons, encodeReading_length] at ih ⊢
    omega

theorem encodeReadings_slot (rs : List (Option ℕ)) (tail : List Char) :
    ∀ i : ℕ, i < rs.length →
      ((encodeReadings rs ++ tail).drop (i * 8)).take 8 = encodeReading (rs.getD i none) := by
  induction rs with
  | nil => intro i hi; exact absurd hi (by simp)
  | cons r rest ih =>
    intro i hi
    cases i with
    | zero =>
      simp only [Nat.zero_mul, List.drop_zero, List.getD_cons_zero]
      rw [encodeReadings, List.map_cons, List.flatten_cons, List.append_assoc,
        List.take_left' (encodeReading_length r)]
    | succ j =>
      rw [encodeReadings, List.map_cons, List.flatten_cons, List.append_assoc,
        show (j + 1) * 8 = 8 + j * 8 from by ring, ← List.drop_drop,
        List.drop_left' (encodeReading_length r), List.getD_cons_succ]
      exact ih j (by simpa using hi)

theorem pyUpper_encodeReading (r : Option ℕ) :
    pyUpper (encodeReading r) = encodeReading r := by
  cases r with
  | none => decide
  | some v => exact pyUpper_natToHex v 8

theorem natToHex8_sentinel {v : ℕ} (hv : v < 2 ^ 32) (hne : v ≠ 0xFFFFFFFE) :
    natToHex v 8 ≠ ['F', 'F', 'F', 'F', 'F', 'F', 'F', 'E'] := by
  intro h
  have h1 := pyIntHex_natToHex (n := v) (w := 8) (by norm_num) (by norm_num ; omega)
  rw [h] at h1
  have h2 : pyIntHex? ['F', 'F', 'F', 'F', 'F', 'F', 'F', 'E'] =
      some (4294967294 : ℤ) := by decide
  rw [h2] at h1
  exact hne (by exact_mod_cast Option.some.inj h1.symm)

/-- Unfolding of `extract_readings` on a present payload. -/
theorem extract_readings_some (e : List Char) :
    extract_readings (some e) =
      (if e = [] ∨ e.length < 388 then []
       else (List.range 48).map fun i =>
         if pyUpper (((e.drop 4).drop (i * 8)).take 8) =
             ['F', 'F', 'F', 'F', 'F', 'F', 'F', 'E'] then none
         else pyIntHex? (pyUpper (((e.drop 4).drop (i * 8)).take 8))) := rfl

theorem extract_readings_encode (hdr : List Char) (rs : List (Option ℕ)) (tail : List Char)
    (hhdr : hdr.length = 4) (hrs : rs.length = 48) (hwf : ReadingsWF rs) :
    extract_readings (some (hdr ++ (encodeReadings rs ++ tail))) =
      rs.map (fun r => r.map (fun v => (v : ℤ))) := by
  set s : List Char := hdr ++ (encodeReadings rs ++ tail) with hs
  have hlen : s.length = 388 + tail.length := by
    rw [hs]
    simp [List.length_append, encodeReadings_length, hhdr, hrs]
    omega
  have hdrop : s.drop 4 = encodeReadings rs ++ tail := by
    rw [hs]
    exact List.drop_left' hhdr
  rw [extract_readings_some, if_neg (by
    rintro (h0 | h0)
    · rw [h0] at hlen
      exact absurd (show (0 : ℕ) = 388 + tail.length from hlen) (by omega)
    · rw [hlen] at h0
      omega)]
  refine List.ext_getElem (by simp [hrs]) ?_
  intro i h1 h2
  have h2Rs : i < rs.length := by simpa using h2
  simp only [List.getElem_map, List.getElem_range]
  rw [hdrop, encodeReadings_slot rs tail i h2Rs, pyUpper_encodeReading]
  have hgetd : rs.getD i none = rs[i] := List.getD_eq_getElem rs none h2Rs
  cases hr : rs[i] with
  | none =>
    rw [hgetd, hr]
    rfl
  | some v =>
    have hmem : some v ∈ rs := hr ▸ List.getElem_mem h2Rs
    obtain ⟨hv, hvne⟩ := hwf v hmem
    rw [hgetd, hr]
    show (if natToHex v 8 = _ then none else pyIntHex? (natToHex v 8)) = some (v : ℤ)
    rw [if_neg (natToHex8_sentinel hv hvne),
      pyIntHex_natToHex (by norm_num) (by norm_num ; omega)]

/-- A 390-character E2 payload: a 4-character day header, 48 readings of
value 1, and 2 stray characters. -/
def c5Overlong : List Char :=
  ['0', '0', '0', '0'] ++ (encodeReadings (List.replicate 48 (some 1)) ++ ['0', '0'])

set_option maxRecDepth 4096 in
/-- **C5 counterexample.** `_extract_readings` only requires **at least** 388
hex characters: this 390-character payload (not exactly 388) is not rejected
— it yields all 48 readings. -/
theorem claim5_length_counterexample :
    c5Overlong.length = 390 ∧
    extract_readings (some c5Overlong) = List.replicate 48 (some 1) := by
  constructor
  · decide
  · decide

/-- **C5 (amended).** An E2 history payload needs **at least** 388 hex
characters (194 bytes): a missing payload or one shorter than 388 characters
yields no readings; any payload consisting of a 2-byte day field (ignored),
48 4-byte readings and an arbitrary tail has its 48 readings read, with the
sentinel `FFFFFFFE` mapped to "no data" slots. -/
theorem claim5_history_payload :
    extract_readings none = [] ∧
    (∀ e : List Char, e.length < 388 → extract_readings (some e) = []) ∧
    (∀ (hdr : List Char) (rs : List (Option ℕ)) (tail : List Char),
      hdr.length = 4 → rs.length = 48 → ReadingsWF rs →
      extract_readings (some (hdr ++ (encodeReadings rs ++ tail))) =
        rs.map (fun r => r.map (fun v => (v : ℤ)))) := by
  refine ⟨rfl, ?_, extract_readings_encode⟩
  intro e he
  rw [extract_readings_some, if_pos (Or.inr he)]

/-- Witness for C5: a short payload yields nothing; a well-formed payload
with 47 sentinels and one reading yields exactly that reading list. -/
theorem claim5_history_payload_witness :
    extract_readings (some ['0', '0', '0', '0']) = [] ∧
    extract_readings (some (['0', '0', '0', '0'] ++
        (encodeReadings (List.replicate 47 (none : Option ℕ) ++ [some 100]) ++ []))) =
      (List.replicate 47 (none : Option ℕ) ++ [some 100]).map
        (Option.map (fun v : ℕ => (v : ℤ))) := by
  constructor
  · exact claim5_history_payload.2.1 ['0', '0', '0', '0'] (by decide)
  · exact claim5_history_payload.2.2 ['0', '0', '0', '0']
      (List.replicate 47 (none : Option ℕ) ++ [some 100]) [] (by decide) (by decide)
      (by decide)

/-! ## Claim C1: the 30-minute consumption computation -/

/-- The scan with the latest reading already in hand: it returns that
reading paired with the next non-`none` element of the reversed list. -/
theorem findTwoLatestAux_some (rl : List (Option ℤ)) :
    ∀ (i : ℕ) (v : ℤ) (j : ℕ),
      ((findTwoLatestAux rl i (some (v, j))).map fun p => (p.1.1, p.2.1)) =
        (match rl.filterMap id with
         | b :: _ => some (v, b)
         | [] => none) := by
  induction rl with
  | nil => intro i v j; rfl
  | cons o rest ih =>
    intro i v j
    cases o with
    | none =>
      simp only [findTwoLatestAux, List.filterMap_cons]
      exact ih (i - 1) v j
    | some w =>
      simp only [findTwoLatestAux, List.filterMap_cons]
      rfl

/-- The downward scan returns (as values) the first two non-`none` elements
of the reversed reading list. -/
theorem findTwoLatestAux_none (rl : List (Option ℤ)) :
    ∀ i : ℕ,
      ((findTwoLatestAux rl i none).map fun p => (p.1.1, p.2.1)) =
        (match rl.filterMap id with
         | a :: b :: _ => some (a, b)
         | _ => none) := by
  induction rl with
  | nil => intro i; rfl
  | cons o rest ih =>
    intro i
    cases o with
    | none =>
      simp only [findTwoLatestAux, List.filterMap_cons]
      exact ih (i - 1)
    | some w =>
      simp only [findTwoLatestAux, List.filterMap_cons]
      rw [findTwoLatestAux_some rest (i - 1) w i]
      cases hfm : rest.filterMap id with
      | nil => rfl
      | cons b rest2 => rfl

/-- **C1.** For every pair of E2 history inputs (today's payload, optionally
yesterday's), the 30-minute computation scans the concatenated reading list
(`yesterday ++ today` when yesterday is available, else today alone) from the
highest index down, takes the first two non-sentinel readings as *latest*
and *previous*, returns `none` when fewer than two exist, and otherwise
returns `(latest − previous) × multiplier`, rounded to `−log10(multiplier)`
decimals when `multiplier < 1`. -/
theorem claim1_thirty_min_consumption (today yest : Option (List Char)) (m : ℚ)
    (hm : 0 < m) :
    (parse_cumulative_power_history today yest m).map
        HistResult.recent_30min_consumption_kwh =
      (match (combinedReadings today yest).reverse.filterMap id with
       | latest :: previous :: _ =>
         some (if m < 1 then
                 roundTo ((latest - previous) * m) (-(Int.clog 10 m)).toNat
               else (latest - previous) * m)
       | _ => none) := by
  have h := findTwoLatestAux_none (combinedReadings today yest).reverse
    ((combinedReadings today yest).length - 1)
  rw [show findTwoLatestAux (combinedReadings today yest).reverse
      ((combinedReadings today yest).length - 1) none =
      findTwoLatest (combinedReadings today yest) from rfl] at h
  unfold parse_cumulative_power_history
  rcases hfm : (combinedReadings today yest).reverse.filterMap id with _ | ⟨a, _ | ⟨b, rest2⟩⟩
  · rw [hfm] at h
    have h0 : findTwoLatest (combinedReadings today yest) = none := by
      cases hft : findTwoLatest (combinedReadings today yest) with
      | none => rfl
      | some p =>
        rw [hft] at h
        exact Option.noConfusion h
    rw [h0]
    rfl
  · rw [hfm] at h
    have h0 : findTwoLatest (combinedReadings today yest) = none := by
      cases hft : findTwoLatest (combinedReadings today yest) with
      | none => rfl
      | some p =>
        rw [hft] at h
        exact Option.noConfusion h
    rw [h0]
    rfl
  · rw [hfm] at h
    obtain ⟨p, hp, hproj⟩ := Option.map_eq_some'.1 h
    have ha : p.1.1 = a := congrArg Prod.fst hproj
    have hb : p.2.1 = b := congrArg Prod.snd hproj
    rw [hp, Option.some_bind]
    unfold pyRoundMult?
    by_cases hm1 : m < 1
    · simp only [if_pos hm1, if_neg (not_le.mpr hm), Option.map_some']
      rw [ha, hb]
    · simp only [if_neg hm1, Option.map_some']
      rw [ha, hb]

/-- `-int(log10(0.1))` evaluates to 1 decimal. -/
theorem clog_ten_tenth : Int.clog 10 ((1 : ℚ)/10) = -1 := by
  rw [show ((1 : ℚ)/10) = ((10 : ℚ))⁻¹ from by norm_num, Int.clog_inv,
    show ((10 : ℚ)) = ((10 : ℕ) : ℚ) from by norm_num, Int.log_natCast,
    @Nat.log_eq_of_pow_le_of_lt_pow 10 1 10 (by norm_num) (by norm_num)]
  norm_num

/-- Rounding an integer is the identity. -/
theorem roundHalfEven_intCast (k : ℤ) : roundHalfEven ((k : ℤ) : ℚ) = k := by
  unfold roundHalfEven
  rw [Int.floor_intCast]
  rw [if_pos (by norm_num)]

/-- `round(k, d)` is the identity on integers. -/
theorem roundTo_intCast (k : ℤ) (d : ℕ) : roundTo ((k : ℤ) : ℚ) d = (k : ℚ) := by
  unfold roundTo
  rw [show ((k : ℚ) * 10 ^ d) = (((k * 10 ^ d : ℤ)) : ℚ) from by push_cast ; ring,
    roundHalfEven_intCast]
  push_cast
  rw [mul_div_assoc, div_self (by positivity), mul_one]

/-- A today-only E2 payload: 46 sentinel slots, then readings 100 and 110. -/
def c1Today : List Char :=
  ['0', '0', '0', '0'] ++
    (encodeReadings (List.replicate 46 (none : Option ℕ) ++ [some 100, some 110]) ++ [])

set_option maxRecDepth 4096 in
/-- Witness for C1: today-only payload with two trailing readings 100, 110
and multiplier 0.1 gives consumption (110 − 100) × 0.1 = 1.0 kWh. -/
theorem claim1_thirty_min_consumption_witness :
    0 < ((1 : ℚ)/10) ∧
    (parse_cumulative_power_history (some c1Today) none (1/10)).map
        HistResult.recent_30min_consumption_kwh = some 1 := by
  refine ⟨by norm_num, ?_⟩
  have h := claim1_thirty_min_consumption (some c1Today) none (1/10) (by norm_num)
  rw [h, show (combinedReadings (some c1Today) none).reverse.filterMap id =
    [(110 : ℤ), 100] from by decide]
  simp only [clog_ten_tenth, if_pos (show (1 : ℚ)/10 < 1 from by norm_num)]
  rw [show ((((110 : ℤ) : ℚ)) - (((100 : ℤ) : ℚ))) * (1/10) = ((1 : ℤ) : ℚ) from by norm_num,
    show (-(-1 : ℤ)).toNat = 1 from rfl, roundTo_intCast]
  norm_num

/-! ## Claim C3: only substantive records are forwarded -/

theorem tickEntries_key_ne_timestamp (env : MeterEnv) :
    ∀ e ∈ tickEntries env, e.1 ≠ MKey.timestamp := by
  intro e he
  unfold tickEntries at he
  simp only [List.mem_append] at he
  rcases he with ((((he | he) | he) | he) | he)
  · unfold cumulativeEntries at he
    split at he
    · split at he
      · simp only [List.mem_singleton] at he
        rw [he]
        simp
      · exact absurd he (by simp)
    · exact absurd he (by simp)
  · unfold instantEntries at he
    split at he
    · split at he
      · simp only [List.mem_singleton] at he
        rw [he]
        simp
      · exact absurd he (by simp)
    · exact absurd he (by simp)
  · unfold currentEntries at he
    split at he
    · split at he
      · simp only [List.mem_cons, List.mem_singleton] at he
        rcases he with he | he | (he | he)
        · rw [he]
          simp
        · rw [he]
          simp
        · rw [he]
          simp
        · exact absurd he (by simp)
      · exact absurd he (by simp)
    · exact absurd he (by simp)
  · unfold historicalEntries at he
    split at he
    · split at he
      · simp only [List.mem_cons, List.mem_singleton] at he
        rcases he with he | (he | he)
        · rw [he]
          simp
        · rw [he]
          simp
        · exact absurd he (by simp)
      · exact absurd he (by simp)
    · exact absurd he (by simp)
  · unfold recentEntries at he
    split at he
    · simp only [List.mem_cons, List.mem_singleton] at he
      rcases he with he | (he | he)
      · rw [he]
        simp
      · rw [he]
        simp
      · exact absurd he (by simp)
    · exact absurd he (by simp)

/-- **C3.** For every tick, the poller forwards a record to the output queue
only if the record contains at least one key besides `timestamp`; and when
every property fetch of the tick fails (every transaction result is `none`),
no record reaches the queue or the sinks. -/
theorem claim3_record_forwarding :
    (∀ (connected : Bool) (env : MeterEnv) (d : MeterRecord),
      get_meter_data connected env = some d →
      ∃ e ∈ d, e.1 ≠ MKey.timestamp) ∧
    (∀ connected : Bool,
      tick_forwarded connected ⟨none, none, none, none, none, none, none, none, none⟩ =
        []) := by
  constructor
  · intro connected env d h
    unfold get_meter_data at h
    split at h
    · exact Option.noConfusion h
    · split at h
      · next hlen =>
        have hd : (MKey.timestamp, MVal.tsNow) :: tickEntries env = d :=
          Option.some.inj h
        have hne : tickEntries env ≠ [] := by
          intro h0
          rw [h0] at hlen
          exact absurd hlen (by decide)
        obtain ⟨e, hmem⟩ := List.exists_mem_of_ne_nil _ hne
        exact ⟨e, by rw [← hd] ; exact List.mem_cons_of_mem _ hmem,
          tickEntries_key_ne_timestamp env e hmem⟩
      · exact Option.noConfusion h
  · intro connected
    cases connected with
    | false => rfl
    | true => rfl

/-- Witness for C3: a tick in which only the instantaneous-power fetch
succeeded forwards a record with the `instant_power_w` key. -/
theorem claim3_record_forwarding_witness :
    ∃ e ∈ [(MKey.timestamp, MVal.tsNow), (MKey.instant_power_w, MVal.z 150)],
      e.1 ≠ MKey.timestamp :=
  claim3_record_forwarding.1 true
    ⟨none, none, some "1081000302880105FF017201E70400000096".toList,
     none, none, none, none, none, none⟩
    [(MKey.timestamp, MVal.tsNow), (MKey.instant_power_w, MVal.z 150)]
    (by decide)
